import Mathlib

/-!
Shallow embedding of the core logic of the fixit-hero-app repository
(a React PWA for home-repair diagnosis) and proofs about it.

Modelled components:
* the structured-text diagnosis extractor (`extractDiagnosis` in the
  Scanner component),
* the resilient AI gateway (`tryWithFallback`, `attemptRequest`,
  `sendMessageStream`, `analyzeImage`, `analyzeImageWithDescription`,
  `analyzeTextIssue` in `geminiService.ts`),
* the conversation-history window (`buildMultimodalHistory` and the chat
  session plumbing of the Scanner component),
* the shopping-list add path (`addToIssueShoppingList` in
  `shoppingListService.ts` together with the `shopping_list_items`
  uniqueness constraint from the database schema),
* the maintenance due-date calculator (`calculateNextDue`,
  `calculateTaskStatus` in `maintenanceService.ts`).

Conventions of the embedding:
* JS strings are modelled as `List Char`; `.length` is the list length
  (the sources only manipulate BMP text, where UTF-16 length and
  code-point length agree).
* JS numbers holding timestamps are modelled as `Int` milliseconds;
  `Math.floor(a / b)` for a positive literal `b` is `Int` division `/`,
  which in Lean/Mathlib is floor division for positive divisors, and the
  ECMAScript `modulo` operation (floor style) is `%` on `Int`.
* JS `Date` civil-field accessors are modelled in UTC (the code runs in
  the browser's local zone; the arithmetic is zone-independent, only the
  origin shifts).  `civilFromDays` / `daysFromCivil` are the standard
  proleptic-Gregorian day-number conversions, which agree with the
  ECMAScript `YearFromTime` / `MonthFromTime` / `DateFromTime` and
  `MakeDay` operations; `MakeDay` tolerates out-of-range day values by
  adding the excess days, modelled by `daysFromCivil y m 1 + (d - 1)`.
* Network calls are modelled by an environment (oracle) mapping the model
  name and the attempt index to the result of that attempt.
-/

namespace FixitHero

/-! ### JavaScript string primitives -/

/-- The character class of the JS regex `\s` and of `String.prototype.trim`
(space, tab, LF, CR, VT, FF, NBSP, BOM; the exotic Unicode space separators
are omitted, none of the modelled literals contain them). -/
def jsWs (c : Char) : Bool :=
  c = ' ' || c = '\t' || c = '\n' || c = '\r' ||
  c = Char.ofNat 11 || c = Char.ofNat 12 || c = Char.ofNat 160 ||
  c = Char.ofNat 65279

/-- ASCII lower-casing, the fragment of `toLowerCase()` the sources rely on. -/
def lowerChar (c : Char) : Char :=
  if 'A' ≤ c ∧ c ≤ 'Z' then Char.ofNat (c.toNat + 32) else c

def lowerL (l : List Char) : List Char := l.map lowerChar

/-- JS `String.prototype.trim`, right half. -/
def trimRightL (l : List Char) : List Char := (l.reverse.dropWhile jsWs).reverse

/-- JS `String.prototype.trim`. -/
def trimL (l : List Char) : List Char := trimRightL (l.dropWhile jsWs)

/-- Does `pat` occur as a contiguous sublist starting at position `i`? -/
def subAt (pat l : List Char) (i : Nat) : Bool := pat.isPrefixOf (l.drop i)

/-- JS `String.prototype.includes` (substring containment). -/
def containsSub (pat : List Char) : List Char → Bool
  | [] => pat.isPrefixOf ([] : List Char)
  | c :: rest => pat.isPrefixOf (c :: rest) || containsSub pat rest

/-! ### Gregorian calendar arithmetic (the fragment of JS `Date` used by
`maintenanceService.ts`) -/

/-- Day number (days since 1970-01-01) of a civil date, the standard
`days_from_civil` computation used by every proleptic-Gregorian
implementation, including the ECMAScript `MakeDay` chain.  `m` is 1-based.
Day values beyond the month length spill into the following months, exactly
as ECMAScript `MakeDay` handles them. -/
def daysFromCivil (y m d : Int) : Int :=
  let y' := if m ≤ 2 then y - 1 else y
  let era := y' / 400
  let yoe := y' - era * 400
  let mp := if m > 2 then m - 3 else m + 9
  let doy := (153 * mp + 2) / 5 + d - 1
  let doe := yoe * 365 + yoe / 4 - yoe / 100 + doy
  era * 146097 + doe - 719468

/-- Civil date `(year, month, day)` of a day number, the standard
`civil_from_days` computation (ECMAScript `YearFromTime`/`MonthFromTime`/
`DateFromTime`).  `month` is 1-based. -/
def civilFromDays (z : Int) : Int × Int × Int :=
  let z' := z + 719468
  let era := z' / 146097
  let doe := z' - era * 146097
  let yoe := (doe - doe / 1460 + doe / 36524 - doe / 146096) / 365
  let y := yoe + era * 400
  let doy := doe - (365 * yoe + yoe / 4 - yoe / 100)
  let mp := (5 * doy + 2) / 153
  let d := doy - (153 * mp + 2) / 5 + 1
  let m := if mp < 10 then mp + 3 else mp - 9
  (if m ≤ 2 then y + 1 else y, m, d)

def civilYear (z : Int) : Int := (civilFromDays z).1

def civilMonth (z : Int) : Int := (civilFromDays z).2.1

def civilDay (z : Int) : Int := (civilFromDays z).2.2

/-- `Date.prototype.getMonth` (0-based month) of a millisecond timestamp. -/
def jsGetMonth (t : Int) : Int := civilMonth (t / 86400000) - 1

/-- `Date.prototype.getFullYear` of a millisecond timestamp. -/
def jsGetFullYear (t : Int) : Int := civilYear (t / 86400000)

/-- ECMAScript `MakeDate (MakeDay (y, mv, d), tod)`: `mv` is a 0-based month
value that may exceed 11 (it is normalised into the year), `d` a day value
that may exceed the month length (excess days spill over), `tod` the
milliseconds within the day. -/
def jsMakeDate (y mv d tod : Int) : Int :=
  (daysFromCivil (y + mv / 12) (mv % 12 + 1) 1 + (d - 1)) * 86400000 + tod

/-- `new Date(t).setMonth(mv)`: keep year, day-of-month and time-of-day,
replace the 0-based month value. -/
def jsSetMonth (t mv : Int) : Int :=
  jsMakeDate (civilYear (t / 86400000)) mv (civilDay (t / 86400000)) (t % 86400000)

/-- `new Date(t).setFullYear(yv)`: keep month, day-of-month and time-of-day,
replace the year. -/
def jsSetFullYear (t yv : Int) : Int :=
  jsMakeDate yv (civilMonth (t / 86400000) - 1) (civilDay (t / 86400000)) (t % 86400000)

/-- `new Date(y, m0, d).getTime()` for a 1-based `m` (the sources write
`new Date(year, 2, 20)` for March 20), at midnight. -/
def dateMs (y m d : Int) : Int := daysFromCivil y m d * 86400000

/-! ### Maintenance service (`calculateNextDue`, `calculateTaskStatus`) -/

inductive TaskStatus where
  | upcoming | due | overdue | completed
deriving DecidableEq, Repr

/-- Milliseconds per day, the constant `1000 * 60 * 60 * 24`. -/
def msPerDay : Int := 86400000

/-- `calculateTaskStatus` from `src/src/services/maintenanceService.ts`.
`now` is the single `Date.now()` read.  `nextDue = none` models a null
`nextDue`; JS falsiness (`if (!nextDue)`) also sends a `0` timestamp to the
same branch.  `daysUntilDue` is `Math.floor((nextDue - now) / msPerDay)`,
i.e. `Int` floor division by the positive constant. -/
def calculateTaskStatus (now : Int) (nextDue : Option Int) (completed : Bool) :
    TaskStatus :=
  if completed then .completed
  else
    match nextDue with
    | none => .due
    | some nd =>
      if nd = 0 then .due
      else
        let daysUntilDue : Int := (nd - now) / 86400000
        if daysUntilDue < 0 then .overdue
        else if daysUntilDue ≤ 7 then .due
        else .upcoming

inductive FreqUnit where
  | month | week | day | year
deriving DecidableEq, Repr

def isDigitCh (c : Char) : Bool := '0' ≤ c && c ≤ '9'

def natOfDigits (l : List Char) : Nat := l.foldl (fun n c => n * 10 + (c.toNat - 48)) 0

/-- One attempt of the regex `/every\s+(\d+)\s*(month|week|day|year)/` at the
head of `r` (already lower-cased).  The character classes of the pattern are
pairwise disjoint at every joint, so the greedy quantifiers never backtrack
and the match is this direct scan. -/
def matchEveryAt (r : List Char) : Option (Nat × FreqUnit) :=
  if ("every".data).isPrefixOf r then
    let r1 := r.drop 5
    if r1.takeWhile jsWs = [] then none
    else
      let r2 := r1.dropWhile jsWs
      let ds := r2.takeWhile isDigitCh
      if ds = [] then none
      else
        let r3 := (r2.dropWhile isDigitCh).dropWhile jsWs
        if ("month".data).isPrefixOf r3 then some (natOfDigits ds, .month)
        else if ("week".data).isPrefixOf r3 then some (natOfDigits ds, .week)
        else if ("day".data).isPrefixOf r3 then some (natOfDigits ds, .day)
        else if ("year".data).isPrefixOf r3 then some (natOfDigits ds, .year)
        else none
  else none

/-- Leftmost match of `/every\s+(\d+)\s*(month|week|day|year)/` over the
whole (lower-cased) string. -/
def everyMatch : List Char → Option (Nat × FreqUnit)
  | [] => none
  | c :: rest =>
    match matchEveryAt (c :: rest) with
    | some x => some x
    | none => everyMatch rest

/-- The branch chain of `calculateNextDue` that follows the `every N unit`
attempt: seasonal spring/fall, then `monthly`, `annual`/`yearly`, `weekly`,
then the 6-month default.  `l` is the lower-cased frequency text,
`lastDate` the last-completed timestamp, `now` the `Date.now()` read used
by the seasonal branch. -/
def calculateNextDue_rest (now lastDate : Int) (l : List Char) : Int :=
  if containsSub "spring".data l && containsSub "fall".data l then
    let currentMonth := jsGetMonth now
    if currentMonth < 3 then dateMs (jsGetFullYear now) 3 20
    else if currentMonth < 9 then dateMs (jsGetFullYear now) 9 22
    else dateMs (jsGetFullYear now + 1) 3 20
  else if containsSub "monthly".data l then jsSetMonth lastDate (jsGetMonth lastDate + 1)
  else if containsSub "annual".data l || containsSub "yearly".data l then
    jsSetFullYear lastDate (jsGetFullYear lastDate + 1)
  else if containsSub "weekly".data l then lastDate + 7 * 86400000
  else jsSetMonth lastDate (jsGetMonth lastDate + 6)

/-- `calculateNextDue` from `src/src/services/maintenanceService.ts`.
`lastCompleted = none` models null; JS falsiness (`if (!lastCompleted)`)
also sends a `0` timestamp to the same branch.  The `every N unit` pattern
is tried first (guarded by `includes('every')`); if its regex fails, control
falls through to the seasonal/keyword/default chain. -/
def calculateNextDue (now : Int) (lastCompleted : Option Int) (frequency : String) : Int :=
  match lastCompleted with
  | none => now
  | some lc =>
    if lc = 0 then now
    else
      let l := lowerL frequency.data
      if containsSub "every".data l then
        match everyMatch l with
        | some (n, u) =>
          match u with
          | .day => lc + (n : Int) * 86400000
          | .week => lc + (n : Int) * 604800000
          | .month => jsSetMonth lc (jsGetMonth lc + (n : Int))
          | .year => jsSetFullYear lc (jsGetFullYear lc + (n : Int))
        | none => calculateNextDue_rest now lc l
      else calculateNextDue_rest now lc l

/-- Modelled from the claim text of C2 (and spec §4.5), for comparison with
the implementation: recognise `every N unit` first, THEN the keyword
frequencies monthly / annual / weekly / semiannual / quarterly (with their
conventional cadences of 1, 12, 0.25 (in weeks), 6 and 3 months), THEN the
spring/fall seasonal special case, and otherwise default to a 6-month
cadence. -/
def calculateNextDue_claimSpec (now : Int) (lastCompleted : Option Int) (frequency : String) : Int :=
  match lastCompleted with
  | none => now
  | some lc =>
    if lc = 0 then now
    else
      let l := lowerL frequency.data
      match everyMatch l with
      | some (n, u) =>
        match u with
        | .day => lc + (n : Int) * 86400000
        | .week => lc + (n : Int) * 604800000
        | .month => jsSetMonth lc (jsGetMonth lc + (n : Int))
        | .year => jsSetFullYear lc (jsGetFullYear lc + (n : Int))
      | none =>
        if containsSub "semiannual".data l then jsSetMonth lc (jsGetMonth lc + 6)
        else if containsSub "quarterly".data l then jsSetMonth lc (jsGetMonth lc + 3)
        else if containsSub "monthly".data l then jsSetMonth lc (jsGetMonth lc + 1)
        else if containsSub "annual".data l || containsSub "yearly".data l then
          jsSetFullYear lc (jsGetFullYear lc + 1)
        else if containsSub "weekly".data l then lc + 7 * 86400000
        else if containsSub "spring".data l && containsSub "fall".data l then
          if jsGetMonth now < 3 then dateMs (jsGetFullYear now) 3 20
          else if jsGetMonth now < 9 then dateMs (jsGetFullYear now) 9 22
          else dateMs (jsGetFullYear now + 1) 3 20
        else jsSetMonth lc (jsGetMonth lc + 6)


/-! ### Resilient AI gateway (`geminiService.ts`)

The generative-AI network is abstracted as an oracle (`GenEnv` /
`StreamEnv`) from the model name and the absolute attempt index on that
model to the outcome of that attempt; within one gateway call the request
content (prompt, optional inline image) is fixed, so it is absorbed into
the oracle.  Time is not part of the state: the backoff waits are modelled
by the `backoffDelay` formula they compute. -/

structure GenError where
  status : Option Nat
  message : String
deriving DecidableEq, Repr

def PRIMARY_MODEL : String := "gemini-2.5-flash"

def FALLBACK_MODEL : String := "gemini-2.5-flash-lite"

def maxRetries : Nat := 2

/-- Single-shot base delay (`baseDelay = 1500`). -/
def baseDelay : Int := 1500

/-- The delay computed before retry number `retryCount`:
`Math.pow(2, retryCount) * baseDelay + Math.random() * 1000`, with the
random jitter a parameter. -/
def backoffDelay (base : Int) (retryCount : Nat) (jitter : Int) : Int :=
  2 ^ retryCount * base + jitter

/-- The transient-error test of the single-shot path (`attemptRequest`):
status 429 or 503, or a message containing quota / limit / rate. -/
def isTransient (e : GenError) : Bool :=
  e.status = some 429 || e.status = some 503 ||
  containsSub "quota".data (lowerL e.message.data) ||
  containsSub "limit".data (lowerL e.message.data) ||
  containsSub "rate".data (lowerL e.message.data)

/-- The rate-limit test of the streaming path (`sendMessageStream`):
status 429, or a message containing quota / limit / rate / per minute.
Unlike `isTransient` it does NOT treat status 503 as transient. -/
def isRateLimitStream (e : GenError) : Bool :=
  e.status = some 429 ||
  containsSub "quota".data (lowerL e.message.data) ||
  containsSub "limit".data (lowerL e.message.data) ||
  containsSub "rate".data (lowerL e.message.data) ||
  containsSub "per minute".data (lowerL e.message.data)

/-- Outcome oracle for the single-shot path. -/
def GenEnv : Type := String → Nat → Except GenError String

/-- `attemptRequest` inside `tryWithFallback`: on a transient error retry
the same model while `retryCount < maxRetries`; after exhausting the
primary model's retries switch once to the fallback model with the counter
reset to 0; otherwise rethrow. -/
def attemptRequest (env : GenEnv) (modelName : String) (retryCount : Nat) :
    Except GenError String :=
  match env modelName retryCount with
  | .ok t => .ok t
  | .error e =>
    if isTransient e then
      if h : retryCount < maxRetries then
        attemptRequest env modelName (retryCount + 1)
      else if modelName = PRIMARY_MODEL then
        attemptRequest env FALLBACK_MODEL 0
      else .error e
    else .error e
termination_by (if modelName = PRIMARY_MODEL then maxRetries + 1 else 0) + (maxRetries - retryCount)
decreasing_by
  · omega
  · have hpf : FALLBACK_MODEL ≠ PRIMARY_MODEL := by decide
    simp only [if_neg hpf]
    rename_i hpm
    simp only [if_pos hpm]
    omega

/-- `tryWithFallback`: start on the primary model with a zero counter. -/
def tryWithFallback (env : GenEnv) : Except GenError String :=
  attemptRequest env PRIMARY_MODEL 0

/-- The `catch` wrapper shared by `analyzeImage`,
`analyzeImageWithDescription` and `analyzeTextIssue`: a rejected promise is
converted into the ordinary string `Hero Brain Error: <message>`. -/
def heroBrainCatch (r : Except GenError String) : String :=
  match r with
  | .ok t => t
  | .error e => "Hero Brain Error: " ++ e.message

def analyzeImage (env : GenEnv) : String := heroBrainCatch (tryWithFallback env)

def analyzeImageWithDescription (env : GenEnv) : String := heroBrainCatch (tryWithFallback env)

def analyzeTextIssue (env : GenEnv) : String := heroBrainCatch (tryWithFallback env)

/-- Outcome oracle for the streaming path: an attempt either delivers the
whole chunk stream or throws. -/
def StreamEnv : Type := String → Nat → Except GenError (List String)

/-- Outcome of one model's `while (retryCount <= maxRetries)` loop in
`sendMessageStream`: success, a thrown error (with the thrown message), or
`break` to the next model of `modelsToTry`. -/
inductive StreamOutcome where
  | success (chunks : List String)
  | failure (message : String)
  | switchModel
deriving DecidableEq, Repr

/-- One model's retry loop of `sendMessageStream`: on a rate-limit error
retry while `retryCount < maxRetries`; a primary-model rate-limit error
after exhaustion breaks to the fallback model; a fallback rate-limit error
after exhaustion throws the capacity message; any other error throws
`error.message || "An error occurred"` immediately. -/
def sendMessageStream_loop (env : StreamEnv) (modelName : String) (retryCount : Nat) :
    StreamOutcome :=
  match env modelName retryCount with
  | .ok chunks => .success chunks
  | .error e =>
    if h : isRateLimitStream e = true ∧ retryCount < maxRetries then
      sendMessageStream_loop env modelName (retryCount + 1)
    else if modelName = PRIMARY_MODEL ∧ isRateLimitStream e = true then
      .switchModel
    else if isRateLimitStream e = true then
      .failure "Rate limit exceeded. Please wait 1-2 minutes before trying again."
    else
      .failure (if e.message = "" then "An error occurred" else e.message)
termination_by maxRetries + 1 - retryCount
decreasing_by omega

/-- `sendMessageStream`: the `for (const modelName of modelsToTry)` loop
over `[PRIMARY_MODEL, FALLBACK_MODEL]`, with the trailing
all-models-failed throw. -/
def sendMessageStream (env : StreamEnv) : StreamOutcome :=
  match sendMessageStream_loop env PRIMARY_MODEL 0 with
  | .switchModel =>
    match sendMessageStream_loop env FALLBACK_MODEL 0 with
    | .switchModel =>
      .failure "Fixit Hero brain is currently unavailable. Please try again in a few minutes."
    | r => r
  | r => r

/-- A single-shot oracle in which every attempt on the primary model fails
with a quota error and the fallback model succeeds at once. -/
def envQuotaThenOk : GenEnv := fun m _ =>
  if m = PRIMARY_MODEL then .error ⟨some 429, "quota exceeded"⟩
  else .ok "fallback answer"

/-- A streaming oracle whose first primary attempt fails with a bare
server-overload error (status 503, no rate-limit wording) and whose every
other attempt succeeds. -/
def envOverloadOnce : StreamEnv := fun m rc =>
  if m = PRIMARY_MODEL ∧ rc = 0 then .error ⟨some 503, "Service Unavailable"⟩
  else .ok ["recovered"]

/-- A single-shot oracle that always fails with a non-transient error. -/
def envAuthFail : GenEnv := fun _ _ => .error ⟨some 403, "API key not valid"⟩



/-! ### Shopping list (`shoppingListService.ts` + the `shopping_list_items`
schema)

The backing store is modelled as a list of rows with the schema's
`UNIQUE(user_id, issue_id, name)` constraint: a multi-row INSERT is atomic
(the first conflicting row aborts the whole statement with error 23505 and
no change), a single-row INSERT fails on conflict with 23505. -/

structure ShoppingRow where
  userId : String
  issueId : String
  issueTitle : String
  name : String
  quantity : Nat
  completed : Bool
deriving DecidableEq, Repr

/-- Two rows collide on the `UNIQUE(user_id, issue_id, name)` key. -/
def keyClash (a b : ShoppingRow) : Bool :=
  decide (a.userId = b.userId ∧ a.issueId = b.issueId ∧ a.name = b.name)

def conflictsWith (r : ShoppingRow) (db : List ShoppingRow) : Bool :=
  db.any (fun x => keyClash x r)

inductive DbError where
  | uniqueViolation | otherError
deriving DecidableEq, Repr

/-- Single-row INSERT under the uniqueness constraint. -/
def insertOne (db : List ShoppingRow) (r : ShoppingRow) : Except DbError (List ShoppingRow) :=
  if conflictsWith r db then .error .uniqueViolation else .ok (db ++ [r])

/-- Multi-row INSERT: rows are checked in order against the table including
the earlier rows of the same statement; the first conflict aborts the whole
insert (the caller's table is unchanged, the error code is 23505). -/
def insertBatch (db : List ShoppingRow) : List ShoppingRow → Except DbError (List ShoppingRow)
  | [] => .ok db
  | r :: rest =>
    if conflictsWith r db then .error .uniqueViolation
    else insertBatch (db ++ [r]) rest

/-- The `parts` argument of `addToIssueShoppingList`: either a plain string
or an object `{name, quantity}`. -/
inductive PartInput where
  | nameOnly (s : String)
  | withQty (name : String) (quantity : Nat)
deriving DecidableEq, Repr

/-- JS `String.prototype.trim` on the `String` wrapper. -/
def trimS (s : String) : String := ⟨trimL s.data⟩

/-- The `itemsToAdd` normalisation: strings are trimmed and get quantity 1,
objects pass through unchanged. -/
def normalizePart : PartInput → String × Nat
  | .nameOnly s => (trimS s, 1)
  | .withQty n q => (n, q)

/-- `addToIssueShoppingList` from `src/src/services/shoppingListService.ts`
(the table-mutating core; the function's return value re-reads the lists
and is not modelled).  On a 23505 batch failure the items are retried one
by one, skipping the ones that already exist. -/
def addToIssueShoppingList (db : List ShoppingRow) (userId issueId issueTitle : String)
    (parts : List PartInput) : List ShoppingRow :=
  let itemsToAdd := (parts.map normalizePart).filter (fun p => p.1.length > 0)
  if itemsToAdd = [] then db
  else
    let newItems := itemsToAdd.map
      (fun p => ShoppingRow.mk userId issueId issueTitle p.1 p.2 false)
    match insertBatch db newItems with
    | .ok db2 => db2
    | .error err =>
      if err = .uniqueViolation then
        newItems.foldl (fun acc r =>
          match insertOne acc r with
          | .ok acc2 => acc2
          | .error _ => acc) db
      else db

/-- No two rows of the table collide on the unique key. -/
def NoDupKeys (db : List ShoppingRow) : Prop :=
  db.Pairwise (fun a b => keyClash a b = false)

/-- A sequence of add operations `(issueId, issueTitle, parts)` by one
user, applied in order. -/
def applyAdds (userId : String) (ops : List (String × String × List PartInput))
    (db : List ShoppingRow) : List ShoppingRow :=
  ops.foldl (fun acc op => addToIssueShoppingList acc userId op.1 op.2.1 op.2.2) db



/-! ### Conversation session (Scanner component + chat plumbing)

`createChatSession` closes over one `chat` object started with an empty
history; every turn sends through a freshly created `tempChat` seeded with
`chat.getHistory()`, and nothing is ever sent on `chat` itself, so the
session state is never appended to.  The Scanner's `handleSend` computes a
text-only window of the last 4 UI messages (`buildMultimodalHistory`) and
passes it as a third argument to `sendMessageStream(text, imageBase64)`,
which declares only two parameters — the window is silently dropped. -/

inductive UiRole where
  | user | assistant
deriving DecidableEq, Repr

structure Message where
  role : UiRole
  text : String
  image : Option String
deriving DecidableEq, Repr

inductive ChatRole where
  | user | model
deriving DecidableEq, Repr

inductive Part where
  | text (s : String)
  | inlineData (b64 : String)
deriving DecidableEq, Repr

structure MultimodalMessage where
  role : ChatRole
  parts : List Part
deriving DecidableEq, Repr

/-- `buildMultimodalHistory` of the Scanner component: take the last 4
messages (`messages.slice(-4)`), keep those with non-blank text, and emit
text-only parts — never an image. -/
def buildMultimodalHistory (messages : List Message) : List MultimodalMessage :=
  (messages.drop (messages.length - 4)).filterMap (fun msg =>
    if trimS msg.text ≠ "" then
      some ⟨if msg.role = .user then .user else .model, [.text msg.text]⟩
    else none)

structure ChatSessionState where
  hist : List MultimodalMessage
deriving DecidableEq, Repr

/-- `createChatSession`: the closed-over `chat` starts with `history: []`. -/
def createChatSession : ChatSessionState := ⟨[]⟩

structure GenRequest where
  history : List MultimodalMessage
  text : String
  image : Option String
deriving DecidableEq, Repr

/-- The request actually dispatched by one `sendMessageStream` call: the
`tempChat` is started with `await chat.getHistory()` — the closed-over
session's history — plus the new turn's text and optional image. -/
def sendMessageStream_request (chat : ChatSessionState) (text : String)
    (image : Option String) : GenRequest :=
  ⟨chat.hist, text, image⟩

/-- The session state after a `sendMessageStream` call: unchanged, because
all sends go to discarded `tempChat` objects and `chat` itself never
receives a message. -/
def sendMessageStream_nextState (chat : ChatSessionState) : ChatSessionState := chat

/-- The send path of the Scanner's `handleSend`: it computes
`buildMultimodalHistory messages` and passes it as an extra third argument,
which `sendMessageStream(text, imageBase64)` does not declare and therefore
ignores; the dispatched request is determined by the session state and the
new turn alone. -/
def handleSend (chat : ChatSessionState) (messages : List Message) (text : String)
    (image : Option String) : GenRequest × ChatSessionState :=
  let mmHistory := buildMultimodalHistory messages
  let _ := mmHistory
  (sendMessageStream_request chat text image, sendMessageStream_nextState chat)

/-- The session state after any number of turns. -/
def chatStateAfter (turnCount : Nat) : ChatSessionState :=
  Nat.rec createChatSession (fun _ st => sendMessageStream_nextState st) turnCount



/-! ### Structured-text extractor (`extractDiagnosis` of the Scanner
component)

The extractor runs a fixed set of JS regexes over the completed response.
Each regex is embedded by its deterministic matching semantics:

* `/\*{0,2}IDENTIFIED ISSUE:\*{0,2}\s*([^\n]+)/i` — the leading `\*{0,2}`
  only widens the match to the left by at most 2 characters and never
  changes which core occurrence of `IDENTIFIED ISSUE:` matches first
  (occurrences are at least 17 apart), nor the capture; after the colon,
  the greedy `\*{0,2}` consumes up to two asterisks (backing off if the
  rest then fails), the greedy `\s*` consumes whitespace up to the next
  non-whitespace character — crossing newlines — and `([^\n]+)` captures
  the remainder of that line; when everything to the end of the string is
  whitespace, the engine backs `\s*` off to the last character that is not
  a newline and captures from there.
* the section regexes
  `/\*{0,2}HDR:\*{0,2}[\s\S]*?(?=ALT1|ALT2|...|$)/i` — every lookahead
  alternative starts with `\*{0,2}` and ends with `\*{0,2}`, so the
  lookahead succeeds where an alternative header follows at most two
  asterisks; the lazy `[\s\S]*?` stops at the first such position (or the
  end); the match starts at most two asterisks before the first core
  occurrence of `HDR:`.
* `.search(/\bJSON\b/i)` and `.search(/\{[\s\S]*?"FINAL_DIAGNOSIS"/i)` —
  leftmost positions computed by `firstSat` below.
-/

structure DiagnosisResult where
  title : List Char
  summary : List Char
  parts_needed : List (List Char)
  tools_needed : List (List Char)
  steps : List (List Char)
deriving DecidableEq, Repr

structure Extraction where
  cleanedText : List Char
  diagnosis : Option DiagnosisResult
deriving DecidableEq, Repr

/-- Case-insensitive literal match at the head of `l`. -/
def atCI (pat : String) (l : List Char) : Bool := pat.data.isPrefixOf (lowerL l)

/-- First index `i ≥ 0` (if any) where `pat` occurs case-insensitively. -/
def findCIFrom (pat : String) : List Char → Option Nat
  | [] => none
  | c :: rest =>
    if atCI pat (c :: rest) then some 0
    else (findCIFrom pat rest).map (· + 1)

/-- The number of asterisks `\*{0,2}` consumes greedily at the head. -/
def astCap (l : List Char) : Nat := min 2 (l.takeWhile (· = '*')).length

/-- Index of the last character of `r` that is not a newline. -/
def lastNonNl : List Char → Option Nat
  | [] => none
  | c :: rest =>
    match lastNonNl rest with
    | some i => some (i + 1)
    | none => if c ≠ '\n' then some 0 else none

/-- `\s*([^\n]+)` at the head of `r`: greedy whitespace (crossing
newlines), then the capture runs to the end of the line; if everything to
the end is whitespace, back off to the last non-newline character. -/
def titleWsCapture (r : List Char) : Option (List Char) :=
  let rest := r.dropWhile (fun c => jsWs c)
  if rest ≠ [] then some (rest.takeWhile (· ≠ '\n'))
  else
    match lastNonNl r with
    | some i => some ((r.drop i).takeWhile (· ≠ '\n'))
    | none => none

/-- `\*{0,2}\s*([^\n]+)`: try consuming `k` asterisks first (the greedy
maximum), then fewer, as the regex backtracks. -/
def titleTailAst (r : List Char) : Nat → Option (List Char)
  | 0 => titleWsCapture r
  | k + 1 =>
    match titleWsCapture (r.drop (k + 1)) with
    | some c => some c
    | none => titleTailAst r k

def titleTailCapture (r : List Char) : Option (List Char) :=
  titleTailAst r (astCap r)

/-- Leftmost capture of the title regex: the first core occurrence of
`IDENTIFIED ISSUE:` whose tail matches. -/
def titleScan : List Char → Option (List Char)
  | [] => none
  | c :: rest =>
    if atCI "identified issue:" (c :: rest) then
      match titleTailCapture ((c :: rest).drop 17) with
      | some cap => some cap
      | none => titleScan rest
    else titleScan rest

/-- One lookahead alternative `\*{0,2}ALT` at this position. -/
def altAt (a : String) (r : List Char) : Bool :=
  atCI a r || (r.take 1 = ['*'] && atCI a (r.drop 1)) ||
  (r.take 2 = ['*', '*'] && atCI a (r.drop 2))

def lookaheadAt (alts : List String) (r : List Char) : Bool :=
  alts.any (fun a => altAt a r)

/-- The lazy `[\s\S]*?(?=alts|$)` body: everything up to the first
position where a lookahead alternative matches, or to the end. -/
def lazyUpto (alts : List String) : List Char → List Char
  | [] => []
  | c :: rest => if lookaheadAt alts (c :: rest) then [] else c :: lazyUpto alts rest

/-- Leftmost match text `m[0]` of a section regex
`/\*{0,2}hdr\*{0,2}[\s\S]*?(?=alts|$)/i`. -/
def sectionMatch (hdr : String) (alts : List String) (s : List Char) :
    Option (List Char) :=
  match findCIFrom hdr s with
  | none => none
  | some i =>
    let a := min 2 ((s.take i).reverse.takeWhile (· = '*')).length
    let occ := s.drop i
    let afterHdr := occ.drop hdr.length
    let k := astCap afterHdr
    some ((s.drop (i - a)).take a ++ occ.take hdr.length ++ afterHdr.take k ++
      lazyUpto alts (afterHdr.drop k))

/-- JS `split('\n')`. -/
def splitNl : List Char → List (List Char)
  | [] => [[]]
  | c :: rest =>
    let r := splitNl rest
    if c = '\n' then [] :: r
    else
      match r with
      | [] => [[c]]
      | h :: t => (c :: h) :: t

/-- One line of a parts/tools section: after trimming, the line must start
with `- ` or `* `; the bullet marker and the whitespace after it are
stripped (`replace(/^[-*]\s+/, '')`), the item is trimmed again and kept
only when its length is in (1, 100). -/
def bulletItem (line : List Char) : Option (List Char) :=
  let trimmed := trimL line
  if ("- ".data).isPrefixOf trimmed || ("* ".data).isPrefixOf trimmed then
    let item := trimL ((trimmed.drop 1).dropWhile (fun c => jsWs c))
    if item ≠ [] ∧ item.length > 1 ∧ item.length < 100 then some item else none
  else none

/-- One line of the steps section: `^\d+\.\s+(.+)` on the trimmed line,
capture trimmed.  (Because the line is trimmed first, the text after the
whitespace run is never empty when the `\s+` matched.) -/
def stepItem (line : List Char) : Option (List Char) :=
  let trimmed := trimL line
  let ds := trimmed.takeWhile isDigitCh
  if ds = [] then none
  else
    match trimmed.drop ds.length with
    | '.' :: r2 =>
      if r2.takeWhile (fun c => jsWs c) = [] then none
      else
        let cap := r2.dropWhile (fun c => jsWs c)
        if cap = [] then none else some (trimL cap)
    | _ => none

def sectionItems (hdr : String) (alts : List String) (s : List Char) :
    List (List Char) :=
  match sectionMatch hdr alts s with
  | none => []
  | some m0 => (splitNl m0).filterMap bulletItem

def sectionSteps (s : List Char) : List (List Char) :=
  match sectionMatch "repair steps:" ["prevention tips:"] s with
  | none => []
  | some m0 => (splitNl m0).filterMap stepItem

/-- The summary header `WHAT'S WRONG:` (lower-cased; the apostrophe is
assembled from its code point). -/
def watsWrongHdr : String := "what" ++ String.mk [Char.ofNat 39] ++ "s wrong:"

/-- `replace(/\*{0,2}hdr\*{0,2}/i, '')`: remove the leftmost match (the
first core occurrence together with at most two asterisks on each side). -/
def stripHdrCI (hdr : String) (m0 : List Char) : List Char :=
  match findCIFrom hdr m0 with
  | none => m0
  | some i =>
    let a := min 2 ((m0.take i).reverse.takeWhile (· = '*')).length
    let k := astCap (m0.drop (i + hdr.length))
    m0.take (i - a) ++ m0.drop (i + hdr.length + k)

def summaryOf (s : List Char) : List Char :=
  match sectionMatch watsWrongHdr
      ["difficulty:", "required parts:", "required tools:", "repair steps:"] s with
  | none => []
  | some m0 => trimL (stripHdrCI watsWrongHdr m0)

/-- First index `i` in `[start, start + fuel)` with `p i = true`. -/
def firstSat (p : Nat → Bool) : Nat → Nat → Option Nat
  | _, 0 => none
  | i, fuel + 1 => if p i then some i else firstSat p (i + 1) fuel

def isWordCh (c : Char) : Bool :=
  ('a' ≤ c && c ≤ 'z') || ('A' ≤ c && c ≤ 'Z') || ('0' ≤ c && c ≤ '9') || c = '_'

/-- A word-boundary neighbour: absent, or not a word character. -/
def noWordOpt : Option Char → Bool
  | none => true
  | some c => !(isWordCh c)

/-- Does `/\bJSON\b/i` match at position `k`? -/
def kwB (s : List Char) (k : Nat) : Bool :=
  ("json".data.isPrefixOf (lowerL (s.drop k))) &&
  noWordOpt ((s.take k).getLast?) &&
  noWordOpt ((s.drop (k + 4)).head?)

/-- `responseText.search(/\bJSON\b/i)`. -/
def jsonKeywordIndex (s : List Char) : Option Nat :=
  firstSat (kwB s) 0 (s.length + 1)

def lbraceChar : Char := Char.ofNat 123

/-- Does `/\{[\s\S]*?"FINAL_DIAGNOSIS"/i` match at position `i`?  It does
exactly when the character there is an opening brace and the quoted field
name occurs (case-insensitively) somewhere after it. -/
def isLbraceOpt : Option Char → Bool
  | some c => c = lbraceChar
  | none => false

def braceB (s : List Char) (i : Nat) : Bool :=
  isLbraceOpt ((s.drop i).head?) &&
  containsSub ("\"final_diagnosis\"".data) (lowerL (s.drop (i + 1)))

/-- `responseText.search(/\{[\s\S]*?"FINAL_DIAGNOSIS"/i)`. -/
def braceSearch (s : List Char) : Option Nat :=
  firstSat (braceB s) 0 (s.length + 1)

/-- The cutoff before any trailing raw-data payload: the `JSON` keyword
position if present, else the brace-marker position, else the length. -/
def cutoffIndex (s : List Char) : Nat :=
  match jsonKeywordIndex s with
  | some k => k
  | none =>
    match braceSearch s with
    | some i => i
    | none => s.length

/-- `extractDiagnosis` of the Scanner component: parse title, summary,
parts, tools and steps from the structured text, cut the response before
any raw-data payload, and return a diagnosis exactly when the title is
non-empty. -/
def extractDiagnosis (s : List Char) : Extraction :=
  let title :=
    match titleScan s with
    | some cap => trimL cap
    | none => []
  let diagnosis : DiagnosisResult :=
    { title := title
      summary := summaryOf s
      parts_needed :=
        sectionItems "required parts:" ["required tools:", "repair steps:", "prevention tips:"] s
      tools_needed := sectionItems "required tools:" ["repair steps:", "prevention tips:"] s
      steps := sectionSteps s }
  { cleanedText := trimL (s.take (cutoffIndex s))
    diagnosis := if title ≠ [] then some diagnosis else none }

/-- The response of the spec's C8 scenario. -/
def leakyFaucetResponse : List Char :=
  ("IDENTIFIED ISSUE: Leaky faucet\nREQUIRED PARTS:\n- Washer\n- O-ring\n" ++
   "REQUIRED TOOLS:\n- Wrench\nREPAIR STEPS:\n1. Turn off water\n2. Replace washer").data

/-- The claim's "well-formed IDENTIFIED ISSUE: header": the first
case-insensitive occurrence of the header is followed, on its line, by at
least one character that is neither whitespace nor an emphasis asterisk
(the header carries actual title text). -/
def wellFormedHeaderB (s : List Char) : Bool :=
  match findCIFrom "identified issue:" s with
  | none => false
  | some i =>
    ((s.drop (i + 17)).takeWhile (· ≠ '\n')).any (fun c => !(jsWs c) && c ≠ '*')

/-- A response carrying a brace marker and, later, the keyword marker. -/
def jsonMarkerResponse : List Char :=
  ("\x7b\"FINAL_DIAGNOSIS\"\x7d JSON").data

/-- A response carrying only a brace marker (at index 10), no keyword. -/
def braceOnlyResponse : List Char :=
  ("Answer ok \x7b\"FINAL_DIAGNOSIS\"\x7d").data


end FixitHero

namespace FixitHero

/-! ## Theorems -/

/-! ### Calendar lemmas -/

set_option maxHeartbeats 4000000 in
theorem yoe_recover (yoe doy doe : Int) (h1 : 0 ≤ yoe) (h2 : yoe ≤ 399)
    (h3 : 0 ≤ doy) (h4 : doy ≤ 364)
    (hdoe : doe = yoe * 365 + yoe / 4 - yoe / 100 + doy) :
    (doe - doe / 1460 + doe / 36524 - doe / 146096) / 365 = yoe := by
  interval_cases yoe <;> omega

theorem civilFromDays_spec (z era yoe mp dd doe doy : Int)
    (hz : z + 719468 = era * 146097 + doe)
    (hdoe : doe = yoe * 365 + yoe / 4 - yoe / 100 + doy)
    (hdoy : doy = (153 * mp + 2) / 5 + dd - 1)
    (h1 : 0 ≤ yoe) (h2 : yoe ≤ 399) (h3 : 0 ≤ mp) (h4 : mp ≤ 11)
    (h5 : 1 ≤ dd) (h6 : dd ≤ 28) :
    civilFromDays z =
      (if (if mp < 10 then mp + 3 else mp - 9) ≤ 2 then yoe + era * 400 + 1 else yoe + era * 400,
       if mp < 10 then mp + 3 else mp - 9, dd) := by
  have hz' : z = era * 146097 + doe - 719468 := by omega
  subst hz'
  unfold civilFromDays
  simp only
  have e1 : (era * 146097 + doe - 719468 + 719468) / 146097 = era := by
    have hb1 : 0 ≤ doe := by omega
    have hb2 : doe ≤ 146096 := by omega
    omega
  rw [e1]
  have e2 : era * 146097 + doe - 719468 + 719468 - era * 146097 = doe := by ring
  rw [e2]
  have e3 : (doe - doe / 1460 + doe / 36524 - doe / 146096) / 365 = yoe := by
    exact yoe_recover yoe doy doe h1 h2 (by omega) (by omega) (by omega)
  rw [e3]
  have e4 : doe - (365 * yoe + yoe / 4 - yoe / 100) = doy := by omega
  rw [e4]
  have e5 : (5 * doy + 2) / 153 = mp := by omega
  rw [e5]
  have e6 : doy - (153 * mp + 2) / 5 + 1 = dd := by omega
  rw [e6]

/-- The civil conversions are mutually inverse on dates whose day is at most
28 (the only fragment the due-date theorems need). -/
theorem civil_roundTrip (y m d : Int) (hm1 : 1 ≤ m) (hm2 : m ≤ 12)
    (hd1 : 1 ≤ d) (hd2 : d ≤ 28) :
    civilFromDays (daysFromCivil y m d) = (y, m, d) := by
  unfold daysFromCivil
  simp only
  rcases le_or_lt m 2 with hm | hm
  · rw [if_pos hm, if_neg (by omega : ¬ m > 2)]
    have := civilFromDays_spec
      ((y - 1) / 400 * 146097 +
        ((y - 1 - (y - 1) / 400 * 400) * 365 + (y - 1 - (y - 1) / 400 * 400) / 4 -
          (y - 1 - (y - 1) / 400 * 400) / 100 + ((153 * (m + 9) + 2) / 5 + d - 1)) - 719468)
      ((y - 1) / 400) (y - 1 - (y - 1) / 400 * 400) (m + 9) d
      ((y - 1 - (y - 1) / 400 * 400) * 365 + (y - 1 - (y - 1) / 400 * 400) / 4 -
        (y - 1 - (y - 1) / 400 * 400) / 100 + ((153 * (m + 9) + 2) / 5 + d - 1))
      ((153 * (m + 9) + 2) / 5 + d - 1)
      (by ring) rfl rfl (by omega) (by omega) (by omega) (by omega) hd1 hd2
    rw [this]
    have hmp : ¬ m + 9 < 10 := by omega
    rw [if_neg hmp]
    have h9 : m + 9 - 9 = m := by ring
    rw [h9, if_pos hm]
    congr 1
    omega
  · rw [if_neg (by omega : ¬ m ≤ 2), if_pos (by omega : m > 2)]
    have := civilFromDays_spec
      (y / 400 * 146097 +
        ((y - y / 400 * 400) * 365 + (y - y / 400 * 400) / 4 -
          (y - y / 400 * 400) / 100 + ((153 * (m - 3) + 2) / 5 + d - 1)) - 719468)
      (y / 400) (y - y / 400 * 400) (m - 3) d
      ((y - y / 400 * 400) * 365 + (y - y / 400 * 400) / 4 -
        (y - y / 400 * 400) / 100 + ((153 * (m - 3) + 2) / 5 + d - 1))
      ((153 * (m - 3) + 2) / 5 + d - 1)
      (by ring) rfl rfl (by omega) (by omega) (by omega) (by omega) hd1 hd2
    rw [this]
    have hmp : m - 3 < 10 := by omega
    rw [if_pos hmp]
    have h3 : m - 3 + 3 = m := by ring
    rw [h3, if_neg (by omega : ¬ m ≤ 2)]
    congr 1
    omega

theorem daysFromCivil_day (y m d : Int) :
    daysFromCivil y m 1 + (d - 1) = daysFromCivil y m d := by
  unfold daysFromCivil
  simp only
  split_ifs <;> ring


/-! ### Claim C7: task status thresholds -/

/-- Characterisation of `calculateTaskStatus` for a nonzero due date. -/
theorem calculateTaskStatus_eq (now nd : Int) (hnd : nd ≠ 0) (c : Bool) :
    calculateTaskStatus now (some nd) c =
      if c then .completed
      else if (nd - now) / 86400000 < 0 then .overdue
      else if (nd - now) / 86400000 ≤ 7 then .due
      else .upcoming := by
  unfold calculateTaskStatus
  cases c
  · simp [hnd]
  · simp

/-- Claim C7 counterexample: the claim says a due date that is NOT within
7 days of now yields `upcoming`, but for a due date 7.5 days ahead
(648000000 ms), which is more than 7 days away, the code still returns
`due`, because it floors the distance to whole days before comparing
with 7. -/
theorem calculateTaskStatus_claim_false :
    (648000000 : Int) - 0 > 7 * msPerDay ∧
    calculateTaskStatus 0 (some 648000000) false = TaskStatus.due := by
  constructor
  · decide
  · decide

/-- Claim C7 (amended): `completed` overrides everything; otherwise, with a
nonzero due date, the status is `overdue` when the due date is in the past,
`due` when it is less than 8 whole days away (the code floors the distance
to days and compares with 7, so anything below 8 days counts as due), and
`upcoming` otherwise; in particular 10 days past yields `overdue`, 3 days
ahead yields `due`, 30 days ahead yields `upcoming`. -/
theorem calculateTaskStatus_spec (now nd : Int) (hnd : nd ≠ 0) :
    calculateTaskStatus now (some nd) true = TaskStatus.completed ∧
    (nd - now < 0 → calculateTaskStatus now (some nd) false = TaskStatus.overdue) ∧
    (0 ≤ nd - now → nd - now < 8 * msPerDay →
      calculateTaskStatus now (some nd) false = TaskStatus.due) ∧
    (8 * msPerDay ≤ nd - now → calculateTaskStatus now (some nd) false = TaskStatus.upcoming) ∧
    calculateTaskStatus 0 (some (-10 * msPerDay)) false = TaskStatus.overdue ∧
    calculateTaskStatus 0 (some (3 * msPerDay)) false = TaskStatus.due ∧
    calculateTaskStatus 0 (some (30 * msPerDay)) false = TaskStatus.upcoming := by
  refine ⟨by rw [calculateTaskStatus_eq now nd hnd]; rfl, ?_, ?_, ?_, by decide, by decide, by decide⟩
  · intro h
    rw [calculateTaskStatus_eq now nd hnd]
    have hq : (nd - now) / 86400000 < 0 := by omega
    simp [hq]
  · intro h1 h2
    rw [calculateTaskStatus_eq now nd hnd]
    have hq1 : ¬ (nd - now) / 86400000 < 0 := by omega
    have hq2 : (nd - now) / 86400000 ≤ 7 := by unfold msPerDay at h2; omega
    simp [hq1, hq2]
  · intro h
    rw [calculateTaskStatus_eq now nd hnd]
    have hq1 : ¬ (nd - now) / 86400000 < 0 := by unfold msPerDay at h; omega
    have hq2 : ¬ (nd - now) / 86400000 ≤ 7 := by unfold msPerDay at h; omega
    simp [hq1, hq2]

/-- Witness for `calculateTaskStatus_spec` at `now = 0`, `nd = 3` days. -/
theorem calculateTaskStatus_spec_witness :
    (259200000 : Int) ≠ 0 ∧
    (0 ≤ (259200000 : Int) - 0 → (259200000 : Int) - 0 < 8 * msPerDay →
      calculateTaskStatus 0 (some 259200000) false = TaskStatus.due) :=
  ⟨by decide, ((calculateTaskStatus_spec 0 259200000 (by decide)).2.2.1)⟩

/-! ### Claim C2: next-due-date calculation -/

/-- Claim C2 counterexample: the claimed parsing policy recognises
`quarterly` as a keyword frequency (three-month cadence) before falling back
to the 6-month default, but the implementation has no quarterly keyword at
all: for `lastCompleted` = 2024-01-15 it returns the 6-month default
(2024-07-15) where the claimed policy yields 2024-04-15. -/
theorem calculateNextDue_claim_false :
    calculateNextDue 0 (some 1705276800000) "quarterly" ≠
      calculateNextDue_claimSpec 0 (some 1705276800000) "quarterly" ∧
    calculateNextDue 0 (some 1705276800000) "quarterly" = dateMs 2024 7 15 ∧
    calculateNextDue_claimSpec 0 (some 1705276800000) "quarterly" = dateMs 2024 4 15 := by
  refine ⟨by decide, by decide, by decide⟩

/-- Claim C2 (amended): `calculateNextDue` recognises an explicit
`every N unit` pattern first, then a spring/fall seasonal special case, then
the keyword frequencies monthly / annual-or-yearly / weekly (there is no
quarterly keyword: `"quarterly"` falls to the 6-month default, and
`"semiannual"` is caught by the `annual` substring check, giving a one-year
cadence, as is any text containing both `spring` and `fall` caught by the
seasonal branch even if it also names a keyword).  For
`frequencyText = "Every 3 months"` the result is `lastCompleted` moved
exactly 3 calendar months forward: same day-of-month and time-of-day, month
index advanced by 3 (for day-of-month at most 28, where no end-of-month
clipping can intervene). -/
theorem calculateNextDue_spec (now t y m d : Int) (ht : t ≠ 0)
    (hc : civilFromDays (t / 86400000) = (y, m, d))
    (hd1 : 1 ≤ d) (hd2 : d ≤ 28) :
    calculateNextDue now (some t) "Every 3 months" = jsSetMonth t (jsGetMonth t + 3) ∧
    (∃ y2 m2,
      civilFromDays (calculateNextDue now (some t) "Every 3 months" / 86400000) = (y2, m2, d) ∧
      12 * y2 + m2 = 12 * y + m + 3 ∧
      calculateNextDue now (some t) "Every 3 months" % 86400000 = t % 86400000) ∧
    calculateNextDue now (some t) "Monthly" = jsSetMonth t (jsGetMonth t + 1) ∧
    calculateNextDue now (some t) "Annually" = jsSetFullYear t (jsGetFullYear t + 1) ∧
    calculateNextDue now (some t) "Weekly" = t + 7 * 86400000 ∧
    calculateNextDue now (some t) "quarterly" = jsSetMonth t (jsGetMonth t + 6) ∧
    calculateNextDue now (some t) "semiannual" = jsSetFullYear t (jsGetFullYear t + 1) ∧
    calculateNextDue now (some t) "monthly, spring and fall" =
      (if jsGetMonth now < 3 then dateMs (jsGetFullYear now) 3 20
       else if jsGetMonth now < 9 then dateMs (jsGetFullYear now) 9 22
       else dateMs (jsGetFullYear now + 1) 3 20) ∧
    calculateNextDue now none "Every 3 months" = now := by
  have h1 : calculateNextDue now (some t) "Every 3 months" = jsSetMonth t (jsGetMonth t + 3) := by
    simp only [calculateNextDue]
    rw [if_neg ht]
    rfl
  refine ⟨h1, ?_, ?_, ?_, ?_, ?_, ?_, ?_, rfl⟩
  · rw [h1]
    unfold jsSetMonth jsMakeDate jsGetMonth civilYear civilMonth civilDay
    rw [hc]
    simp only
    refine ⟨y + (m - 1 + 3) / 12, (m - 1 + 3) % 12 + 1, ?_, by omega, by omega⟩
    have e1 : (daysFromCivil (y + (m - 1 + 3) / 12) ((m - 1 + 3) % 12 + 1) 1 + (d - 1)) * 86400000 +
        t % 86400000 = (daysFromCivil (y + (m - 1 + 3) / 12) ((m - 1 + 3) % 12 + 1) d) * 86400000 +
        t % 86400000 := by
      rw [daysFromCivil_day]
    rw [e1]
    have e2 : (daysFromCivil (y + (m - 1 + 3) / 12) ((m - 1 + 3) % 12 + 1) d * 86400000 +
        t % 86400000) / 86400000 = daysFromCivil (y + (m - 1 + 3) / 12) ((m - 1 + 3) % 12 + 1) d := by
      omega
    rw [e2]
    exact civil_roundTrip _ _ _ (by omega) (by omega) hd1 hd2
  · simp only [calculateNextDue]
    rw [if_neg ht]
    rfl
  · simp only [calculateNextDue]
    rw [if_neg ht]
    rfl
  · simp only [calculateNextDue]
    rw [if_neg ht]
    rfl
  · simp only [calculateNextDue]
    rw [if_neg ht]
    rfl
  · simp only [calculateNextDue]
    rw [if_neg ht]
    rfl
  · simp only [calculateNextDue]
    rw [if_neg ht]
    rfl

/-- Witness for `calculateNextDue_spec` at `lastCompleted` = 2024-01-15. -/
theorem calculateNextDue_spec_witness :
    (1705276800000 : Int) ≠ 0 ∧
    civilFromDays (1705276800000 / 86400000) = (2024, 1, 15) ∧
    (∃ y2 m2,
      civilFromDays (calculateNextDue 0 (some 1705276800000) "Every 3 months" / 86400000) =
        (y2, m2, 15) ∧
      12 * y2 + m2 = 12 * 2024 + 1 + 3 ∧
      calculateNextDue 0 (some 1705276800000) "Every 3 months" % 86400000 =
        (1705276800000 : Int) % 86400000) :=
  ⟨by decide, by decide,
    (calculateNextDue_spec 0 1705276800000 2024 1 15 (by decide) (by decide)
      (by decide) (by decide)).2.1⟩



/-! ### Gateway lemmas -/

theorem attemptRequest_transient_step (env : GenEnv) (m : String) (rc : Nat) (e : GenError)
    (he : env m rc = .error e) (ht : isTransient e = true) (hrc : rc < maxRetries) :
    attemptRequest env m rc = attemptRequest env m (rc + 1) := by
  rw [attemptRequest.eq_def, he]
  simp [ht, hrc]

theorem attemptRequest_nontransient (env : GenEnv) (m : String) (rc : Nat) (e : GenError)
    (he : env m rc = .error e) (ht : isTransient e = false) :
    attemptRequest env m rc = .error e := by
  rw [attemptRequest.eq_def, he]
  simp [ht]

theorem attemptRequest_exhaust_primary (env : GenEnv) (e : GenError)
    (he : env PRIMARY_MODEL maxRetries = .error e) (ht : isTransient e = true) :
    attemptRequest env PRIMARY_MODEL maxRetries = attemptRequest env FALLBACK_MODEL 0 := by
  rw [attemptRequest.eq_def, he]
  simp [ht]

theorem attemptRequest_ok (env : GenEnv) (m : String) (rc : Nat) (t : String)
    (he : env m rc = .ok t) :
    attemptRequest env m rc = .ok t := by
  rw [attemptRequest.eq_def, he]

theorem stream_loop_retry (env : StreamEnv) (m : String) (rc : Nat) (e : GenError)
    (he : env m rc = .error e) (ht : isRateLimitStream e = true) (hrc : rc < maxRetries) :
    sendMessageStream_loop env m rc = sendMessageStream_loop env m (rc + 1) := by
  rw [sendMessageStream_loop.eq_def, he]
  simp [ht, hrc]

theorem stream_loop_nonrl (env : StreamEnv) (m : String) (rc : Nat) (e : GenError)
    (he : env m rc = .error e) (ht : isRateLimitStream e = false) :
    sendMessageStream_loop env m rc =
      .failure (if e.message = "" then "An error occurred" else e.message) := by
  rw [sendMessageStream_loop.eq_def, he]
  simp [ht]

/-! ### Claim C3: fallback after exhausted primary retries -/

/-- Claim C3: when every allowed attempt of the primary model (attempt
indices 0, 1, 2 = `maxRetries`) fails with a transient error, the gateway
falls back exactly once to the fallback model with the retry counter reset
to zero (the whole call equals the fallback run started at counter 0); in
particular, when the fallback's first attempt succeeds, the caller receives
its text and no error is raised. -/
theorem tryWithFallback_quota_fallback (env : GenEnv) (e0 e1 e2 : GenError) (txt : String)
    (h0 : env PRIMARY_MODEL 0 = .error e0) (t0 : isTransient e0 = true)
    (h1 : env PRIMARY_MODEL 1 = .error e1) (t1 : isTransient e1 = true)
    (h2 : env PRIMARY_MODEL 2 = .error e2) (t2 : isTransient e2 = true)
    (hf : env FALLBACK_MODEL 0 = .ok txt) :
    tryWithFallback env = .ok txt ∧
    tryWithFallback env = attemptRequest env FALLBACK_MODEL 0 := by
  have s0 := attemptRequest_transient_step env PRIMARY_MODEL 0 e0 h0 t0 (by decide)
  have s1 := attemptRequest_transient_step env PRIMARY_MODEL 1 e1 h1 t1 (by decide)
  have s2 := attemptRequest_exhaust_primary env e2 h2 t2
  have hfb := attemptRequest_ok env FALLBACK_MODEL 0 txt hf
  have s2' : attemptRequest env PRIMARY_MODEL (1 + 1) = attemptRequest env FALLBACK_MODEL 0 := s2
  refine ⟨?_, ?_⟩
  · rw [tryWithFallback, s0, s1, s2', hfb]
  · rw [tryWithFallback, s0, s1, s2']

/-- Witness for `tryWithFallback_quota_fallback`: the oracle
`envQuotaThenOk` yields three quota errors on the primary model, then a
first-attempt success on the fallback. -/
theorem tryWithFallback_quota_fallback_witness :
    envQuotaThenOk PRIMARY_MODEL 0 = .error ⟨some 429, "quota exceeded"⟩ ∧
    isTransient ⟨some 429, "quota exceeded"⟩ = true ∧
    envQuotaThenOk FALLBACK_MODEL 0 = .ok "fallback answer" ∧
    tryWithFallback envQuotaThenOk = .ok "fallback answer" :=
  ⟨rfl, by decide, rfl,
    (tryWithFallback_quota_fallback envQuotaThenOk _ _ _ _
      rfl (by decide) rfl (by decide) rfl (by decide) rfl).1⟩

/-! ### Claim C4: retry policy on both paths -/

/-- Claim C4 counterexample: a bare server-overload error (status 503,
message without rate-limit wording) is transient for the single-shot path,
but the streaming path's rate-limit test does not recognise it, so the
streaming call fails immediately even though a retry (attempt 1) would
have succeeded. -/
theorem gateway_retry_claim_false :
    isTransient ⟨some 503, "Service Unavailable"⟩ = true ∧
    isRateLimitStream ⟨some 503, "Service Unavailable"⟩ = false ∧
    envOverloadOnce PRIMARY_MODEL 1 = .ok ["recovered"] ∧
    sendMessageStream envOverloadOnce = .failure "Service Unavailable" := by
  refine ⟨by decide, by decide, rfl, ?_⟩
  have h := stream_loop_nonrl envOverloadOnce PRIMARY_MODEL 0
    ⟨some 503, "Service Unavailable"⟩ rfl (by decide)
  rw [sendMessageStream, h]
  rfl

/-- Claim C4 (amended): on the single-shot path every transient error
(status 429 or 503, or quota/limit/rate wording) is retried on the same
model while attempts remain, with the doubling backoff-delay formula, and
every non-transient error fails immediately with no retry and no fallback;
on the streaming path the same holds for its rate-limit signature
(status 429 or quota/limit/rate/per-minute wording), but a bare
server-overload status 503 is NOT recognised there and fails immediately. -/
theorem gateway_retry_spec :
    (∀ (env : GenEnv) (m : String) (rc : Nat) (e : GenError),
      env m rc = .error e → isTransient e = true → rc < maxRetries →
      attemptRequest env m rc = attemptRequest env m (rc + 1)) ∧
    (∀ (env : GenEnv) (m : String) (rc : Nat) (e : GenError),
      env m rc = .error e → isTransient e = false →
      attemptRequest env m rc = .error e) ∧
    (∀ (env : StreamEnv) (m : String) (rc : Nat) (e : GenError),
      env m rc = .error e → isRateLimitStream e = true → rc < maxRetries →
      sendMessageStream_loop env m rc = sendMessageStream_loop env m (rc + 1)) ∧
    (∀ (env : StreamEnv) (e : GenError),
      env PRIMARY_MODEL 0 = .error e → isRateLimitStream e = false →
      sendMessageStream env =
        .failure (if e.message = "" then "An error occurred" else e.message)) ∧
    (∀ (base : Int) (rc : Nat) (j : Int),
      backoffDelay base (rc + 1) j = 2 * backoffDelay base rc 0 + j) ∧
    isTransient ⟨some 503, "The model is overloaded"⟩ = true ∧
    isRateLimitStream ⟨some 503, "The model is overloaded"⟩ = false := by
  refine ⟨attemptRequest_transient_step, attemptRequest_nontransient, stream_loop_retry,
    ?_, ?_, by decide, by decide⟩
  · intro env e he ht
    have h := stream_loop_nonrl env PRIMARY_MODEL 0 e he ht
    rw [sendMessageStream, h]
  · intro base rc j
    rw [backoffDelay, backoffDelay]
    ring

/-- Witness for `gateway_retry_spec`: a non-transient 403 fails the
single-shot path immediately. -/
theorem gateway_retry_spec_witness :
    envAuthFail PRIMARY_MODEL 0 = .error ⟨some 403, "API key not valid"⟩ ∧
    isTransient ⟨some 403, "API key not valid"⟩ = false ∧
    attemptRequest envAuthFail PRIMARY_MODEL 0 = .error ⟨some 403, "API key not valid"⟩ :=
  ⟨rfl, by decide,
    gateway_retry_spec.2.1 envAuthFail PRIMARY_MODEL 0 _ rfl (by decide)⟩

/-! ### Claim C10: the single-shot exports never reject -/

/-- Claim C10: `analyzeImage`, `analyzeImageWithDescription` and
`analyzeTextIssue` always resolve with an ordinary string: on any internal
failure (including exhaustion of all retries and the fallback) the result
is the error message prefixed with `Hero Brain Error: `, and on success it
is the successful text. -/
theorem analyze_never_rejects (env : GenEnv) :
    (∀ e, tryWithFallback env = .error e →
      analyzeImage env = "Hero Brain Error: " ++ e.message ∧
      analyzeImageWithDescription env = "Hero Brain Error: " ++ e.message ∧
      analyzeTextIssue env = "Hero Brain Error: " ++ e.message) ∧
    (∀ t, tryWithFallback env = .ok t →
      analyzeImage env = t ∧ analyzeImageWithDescription env = t ∧
      analyzeTextIssue env = t) := by
  constructor
  · intro e h
    refine ⟨?_, ?_, ?_⟩ <;> simp [analyzeImage, analyzeImageWithDescription,
      analyzeTextIssue, heroBrainCatch, h]
  · intro t h
    refine ⟨?_, ?_, ?_⟩ <;> simp [analyzeImage, analyzeImageWithDescription,
      analyzeTextIssue, heroBrainCatch, h]

/-- Witness for `analyze_never_rejects`: with an always-failing
non-transient oracle all three exports resolve with a `Hero Brain Error: `
string. -/
theorem analyze_never_rejects_witness :
    tryWithFallback envAuthFail = Except.error ⟨some 403, "API key not valid"⟩ ∧
    (analyzeImage envAuthFail = "Hero Brain Error: " ++ "API key not valid" ∧
     analyzeImageWithDescription envAuthFail = "Hero Brain Error: " ++ "API key not valid" ∧
     analyzeTextIssue envAuthFail = "Hero Brain Error: " ++ "API key not valid") := by
  have hfail : tryWithFallback envAuthFail = Except.error ⟨some 403, "API key not valid"⟩ :=
    attemptRequest_nontransient envAuthFail PRIMARY_MODEL 0 _ rfl (by decide)
  exact ⟨hfail, (analyze_never_rejects envAuthFail).1 _ hfail⟩



/-! ### Shopping-list lemmas -/

theorem keyClash_symm_false (a b : ShoppingRow) (h : keyClash a b = false) :
    keyClash b a = false := by
  unfold keyClash at h ⊢
  simp only [decide_eq_false_iff_not] at h ⊢
  intro hc
  exact h ⟨hc.1.symm, hc.2.1.symm, hc.2.2.symm⟩

theorem noDupKeys_append (db : List ShoppingRow) (r : ShoppingRow)
    (h : NoDupKeys db) (hc : conflictsWith r db = false) :
    NoDupKeys (db ++ [r]) := by
  unfold NoDupKeys at h ⊢
  unfold conflictsWith at hc
  rw [List.pairwise_append]
  refine ⟨h, List.pairwise_singleton _ _, ?_⟩
  intro a ha b hb
  rw [List.mem_singleton] at hb
  subst hb
  rw [List.any_eq_false] at hc
  simpa using hc a ha

theorem insertOne_noDupKeys (acc : List ShoppingRow) (r : ShoppingRow) (db2 : List ShoppingRow)
    (h : NoDupKeys acc) (hins : insertOne acc r = .ok db2) : NoDupKeys db2 := by
  unfold insertOne at hins
  by_cases hc : conflictsWith r acc = true
  · rw [if_pos hc] at hins
    exact absurd hins (by simp)
  · rw [if_neg hc] at hins
    cases hins
    exact noDupKeys_append acc r h (by simpa using hc)

theorem foldInsert_noDupKeys (rows : List ShoppingRow) (acc : List ShoppingRow)
    (h : NoDupKeys acc) :
    NoDupKeys (rows.foldl (fun acc r =>
      match insertOne acc r with
      | .ok acc2 => acc2
      | .error _ => acc) acc) := by
  induction rows generalizing acc with
  | nil => exact h
  | cons r rest ih =>
    rw [List.foldl_cons]
    apply ih
    rcases hins : insertOne acc r with d | d
    · simp only [hins]
      exact h
    · simp only [hins]
      exact insertOne_noDupKeys acc r d h hins

theorem insertBatch_noDupKeys (rows : List ShoppingRow) (db db2 : List ShoppingRow)
    (h : NoDupKeys db) (hins : insertBatch db rows = .ok db2) : NoDupKeys db2 := by
  induction rows generalizing db with
  | nil =>
    unfold insertBatch at hins
    cases hins
    exact h
  | cons r rest ih =>
    unfold insertBatch at hins
    by_cases hc : conflictsWith r db = true
    · rw [if_pos hc] at hins
      exact absurd hins (by simp)
    · rw [if_neg hc] at hins
      exact ih (db ++ [r]) (noDupKeys_append db r h (by simpa using hc)) hins

theorem addToIssueShoppingList_noDupKeys (db : List ShoppingRow)
    (userId issueId issueTitle : String) (parts : List PartInput)
    (h : NoDupKeys db) :
    NoDupKeys (addToIssueShoppingList db userId issueId issueTitle parts) := by
  unfold addToIssueShoppingList
  simp only
  split_ifs with h1
  · exact h
  · rcases hins : insertBatch db ((((parts.map normalizePart).filter
      (fun p => p.1.length > 0)).map
      (fun p => ShoppingRow.mk userId issueId issueTitle p.1 p.2 false))) with d | d
    · simp only [hins]
      split_ifs with h2
      · exact foldInsert_noDupKeys _ db h
      · exact h
    · simp only [hins]
      exact insertBatch_noDupKeys _ db d h hins

/-! ### Claim C6: shopping-list key uniqueness -/

/-- Claim C6: after any sequence of add operations by one user, starting
from an empty table (or any table without key duplicates), the table never
contains two rows with the same `(user, issueId, name)` key; and re-adding
an item name already present for the same user and issue leaves the table
unchanged (a no-op, never a duplicate row). -/
theorem shoppingList_unique_keys :
    (∀ (userId : String) (ops : List (String × String × List PartInput)),
      NoDupKeys (applyAdds userId ops [])) ∧
    (∀ (db : List ShoppingRow) (userId : String) (ops : List (String × String × List PartInput)),
      NoDupKeys db → NoDupKeys (applyAdds userId ops db)) ∧
    (∀ (db : List ShoppingRow) (userId issueId issueTitle : String) (s : String),
      conflictsWith (ShoppingRow.mk userId issueId issueTitle (trimS s) 1 false) db = true →
      (trimS s).length > 0 →
      addToIssueShoppingList db userId issueId issueTitle [.nameOnly s] = db) := by
  have hgen : ∀ (db : List ShoppingRow) (userId : String)
      (ops : List (String × String × List PartInput)),
      NoDupKeys db → NoDupKeys (applyAdds userId ops db) := by
    intro db userId ops
    induction ops generalizing db with
    | nil => exact fun h => h
    | cons op rest ih =>
      intro h
      unfold applyAdds
      rw [List.foldl_cons]
      exact ih _ (addToIssueShoppingList_noDupKeys db userId op.1 op.2.1 op.2.2 h)
  refine ⟨fun u ops => hgen [] u ops List.Pairwise.nil, hgen, ?_⟩
  intro db userId issueId issueTitle s hconf hlen
  unfold addToIssueShoppingList
  simp only [List.map_cons, List.map_nil, normalizePart]
  rw [List.filter_cons_of_pos (by simpa using hlen), List.filter_nil]
  simp only [List.map_cons, List.map_nil]
  rw [if_neg (by simp)]
  unfold insertBatch
  rw [if_pos hconf]
  simp only [List.foldl_cons, List.foldl_nil]
  unfold insertOne
  rw [if_pos hconf]
  simp

/-- Witness for `shoppingList_unique_keys`: re-adding "Washer" to an issue
that already lists it leaves the table unchanged. -/
theorem shoppingList_unique_keys_witness :
    conflictsWith (ShoppingRow.mk "u1" "issue1" "Leaky faucet" (trimS "Washer") 1 false)
      [ShoppingRow.mk "u1" "issue1" "Leaky faucet" "Washer" 1 false] = true ∧
    (trimS "Washer").length > 0 ∧
    addToIssueShoppingList [ShoppingRow.mk "u1" "issue1" "Leaky faucet" "Washer" 1 false]
      "u1" "issue1" "Leaky faucet" [.nameOnly "Washer"] =
      [ShoppingRow.mk "u1" "issue1" "Leaky faucet" "Washer" 1 false] :=
  ⟨by decide, by decide,
    shoppingList_unique_keys.2.2 _ "u1" "issue1" "Leaky faucet" "Washer"
      (by decide) (by decide)⟩



/-! ### Claim C5: bounded, text-only replayed history -/

theorem chatStateAfter_hist (n : Nat) : (chatStateAfter n).hist = [] := by
  induction n with
  | zero => rfl
  | succ k ih => simpa [chatStateAfter, sendMessageStream_nextState] using ih

/-- Claim C5: the history replayed to the AI service on every turn is
capped at the last 4 messages, contains only the text of those messages,
and never contains an image part.  The text-only window built by
`buildMultimodalHistory` satisfies those bounds, and the history actually
dispatched satisfies them degenerately: it is always empty, because the
window is passed as an ignored extra argument while the session object
whose history is replayed never accumulates messages. -/
theorem replayedHistory_bounded :
    (∀ msgs : List Message,
      (buildMultimodalHistory msgs).length ≤ 4 ∧
      (∀ mm ∈ buildMultimodalHistory msgs, ∀ p ∈ mm.parts,
        ∃ msg ∈ msgs.drop (msgs.length - 4), p = .text msg.text)) ∧
    (∀ (n : Nat) (msgs : List Message) (text : String) (image : Option String),
      (handleSend (chatStateAfter n) msgs text image).1.history = [] ∧
      (handleSend (chatStateAfter n) msgs text image).1.history.length ≤ 4 ∧
      (∀ mm ∈ (handleSend (chatStateAfter n) msgs text image).1.history,
        ∀ p ∈ mm.parts, ∃ s, p = .text s)) := by
  constructor
  · intro msgs
    constructor
    · calc (buildMultimodalHistory msgs).length
          ≤ (msgs.drop (msgs.length - 4)).length := List.length_filterMap_le _ _
        _ ≤ 4 := by
            rw [List.length_drop]
            omega
    · intro mm hmm p hp
      unfold buildMultimodalHistory at hmm
      rw [List.mem_filterMap] at hmm
      obtain ⟨msg, hmsg, hf⟩ := hmm
      by_cases hne : trimS msg.text ≠ ""
      · rw [if_pos hne] at hf
        cases hf
        rw [List.mem_singleton] at hp
        exact ⟨msg, hmsg, hp⟩
      · rw [if_neg hne] at hf
        exact absurd hf (by simp)
  · intro n msgs text image
    have h : (handleSend (chatStateAfter n) msgs text image).1.history = [] := by
      simp [handleSend, sendMessageStream_request, chatStateAfter_hist]
    refine ⟨h, ?_, ?_⟩
    · rw [h]
      simp
    · intro mm hmm
      rw [h] at hmm
      exact absurd hmm (List.not_mem_nil mm)



/-! ### Claim C8: the leaky-faucet scenario -/

/-- Claim C8: on the spec's scenario response, the extractor yields title
"Leaky faucet", parts ["Washer", "O-ring"], tools ["Wrench"] and steps
["Turn off water", "Replace washer"] (and an empty summary, as the response
has no WHAT'S-WRONG section). -/
theorem extractDiagnosis_scenario :
    (extractDiagnosis leakyFaucetResponse).diagnosis =
      some
        { title := "Leaky faucet".data
          summary := []
          parts_needed := ["Washer".data, "O-ring".data]
          tools_needed := ["Wrench".data]
          steps := ["Turn off water".data, "Replace washer".data] } := by
  set_option maxRecDepth 10000 in decide

/-! ### Claim C9 (counterexample part) -/

/-- Claim C9 counterexample: in `jsonMarkerResponse` both markers are
present — a brace marker at index 0 and the `JSON` keyword at index 20.
The code cuts at the keyword, so `cleanedText` still contains the brace
marker (the detectors themselves locate it at index 0 of the cleaned
text), contradicting "cleanedText is truncated before the first such
marker and never contains that marker". -/
theorem extractDiagnosis_cleaned_claim_false :
    braceSearch jsonMarkerResponse = some 0 ∧
    jsonKeywordIndex jsonMarkerResponse = some 20 ∧
    (extractDiagnosis jsonMarkerResponse).cleanedText =
      ("\x7b\"FINAL_DIAGNOSIS\"\x7d").data ∧
    braceSearch (extractDiagnosis jsonMarkerResponse).cleanedText = some 0 := by
  set_option maxRecDepth 10000 in
  refine ⟨by decide, by decide, by decide, by decide⟩



/-! ### Title-extraction lemmas (claim C1) -/

theorem titleScan_eq_none (s : List Char)
    (h : containsSub "identified issue:".data (lowerL s) = false) :
    titleScan s = none := by
  induction s with
  | nil => rfl
  | cons c rest ih =>
    rw [lowerL, List.map_cons] at h
    unfold containsSub at h
    rw [Bool.or_eq_false_iff] at h
    unfold titleScan
    have hat : atCI "identified issue:" (c :: rest) = false := by
      unfold atCI
      rw [lowerL, List.map_cons]
      exact h.1
    rw [if_neg (by simp [hat])]
    exact ih h.2

theorem dropWhile_ne_nil_of_mem (l : List Char) (c : Char) (hc : c ∈ l)
    (hws : jsWs c = false) : l.dropWhile (fun x => jsWs x) ≠ [] := by
  intro heq
  rw [List.dropWhile_eq_nil_iff] at heq
  have := heq c hc
  simp_all

theorem dropWhile_head_false (p : Char → Bool) (l : List Char) (h : Char)
    (t : List Char) (he : l.dropWhile p = h :: t) : p h = false := by
  induction l with
  | nil => simp at he
  | cons c rest ih =>
    rw [List.dropWhile_cons] at he
    by_cases hp : p c = true
    · rw [if_pos hp] at he
      exact ih he
    · rw [if_neg hp] at he
      cases he
      simpa using hp

theorem trimL_cons_ne_nil (h : Char) (t : List Char) (hws : jsWs h = false) :
    trimL (h :: t) ≠ [] := by
  unfold trimL
  rw [List.dropWhile_cons, if_neg (by simp [hws])]
  unfold trimRightL
  intro heq
  rw [List.reverse_eq_nil_iff, List.dropWhile_eq_nil_iff] at heq
  have := heq h (by rw [List.mem_reverse]; exact List.mem_cons_self h t)
  simp_all

theorem good_beyond_asters (k : Nat) (r : List Char)
    (hk : k ≤ (r.takeWhile (· = '*')).length)
    (c : Char) (hc : c ∈ r.takeWhile (· ≠ '\n')) (hstar : c ≠ '*')
    (hws : jsWs c = false) :
    ∃ c2 ∈ r.drop k, jsWs c2 = false := by
  induction k generalizing r with
  | zero =>
    refine ⟨c, ?_, hws⟩
    rw [List.drop_zero]
    exact (List.takeWhile_prefix _).subset hc
  | succ k ih =>
    match r with
    | [] => simp at hc
    | a :: rest =>
      by_cases ha : a = '*'
      · subst ha
        rw [List.takeWhile_cons, if_pos (by simp)] at hc hk
        · rw [List.mem_cons] at hc
          rcases hc with hc | hc
          · exact absurd hc hstar
          · rw [List.length_cons] at hk
            rw [List.drop_succ_cons]
            exact ih rest (by omega) hc
      · rw [List.takeWhile_cons, if_neg (by simp [ha])] at hk
        simp at hk
  -- the branch structure above also needs the takeWhile on the star side
  -- in the non-star case, handled by the contradiction from hk

theorem titleWsCapture_pos (r : List Char)
    (h : ∃ c ∈ r, jsWs c = false) :
    ∃ cap, titleWsCapture r = some cap ∧ trimL cap ≠ [] := by
  obtain ⟨c, hc, hws⟩ := h
  have hne : r.dropWhile (fun x => jsWs x) ≠ [] := dropWhile_ne_nil_of_mem r c hc hws
  obtain ⟨h0, t0, heq⟩ := List.exists_cons_of_ne_nil hne
  have hh0 : jsWs h0 = false := dropWhile_head_false _ r h0 t0 heq
  have hnl : h0 ≠ '\n' := by
    intro hx
    rw [hx] at hh0
    simp [jsWs] at hh0
  refine ⟨(h0 :: t0).takeWhile (· ≠ '\n'), ?_, ?_⟩
  · unfold titleWsCapture
    rw [heq, if_pos (by simp)]
  · rw [List.takeWhile_cons, if_pos (by simp [hnl])]
    exact trimL_cons_ne_nil h0 _ hh0

theorem titleTailAst_first (r : List Char) (k : Nat) (cap : List Char)
    (hsome : titleWsCapture (r.drop k) = some cap) :
    titleTailAst r k = some cap := by
  cases k with
  | zero =>
    rw [List.drop_zero] at hsome
    exact hsome
  | succ k =>
    unfold titleTailAst
    rw [hsome]

theorem titleTailCapture_good (r : List Char)
    (h : ∃ c ∈ r.takeWhile (· ≠ '\n'), jsWs c = false ∧ c ≠ '*') :
    ∃ cap, titleTailCapture r = some cap ∧ trimL cap ≠ [] := by
  obtain ⟨c, hc, hws, hstar⟩ := h
  have hgood : ∃ c2 ∈ r.drop (astCap r), jsWs c2 = false :=
    good_beyond_asters (astCap r) r (Nat.min_le_right 2 _) c hc hstar hws
  obtain ⟨cap, hcap, htrim⟩ := titleWsCapture_pos (r.drop (astCap r)) hgood
  exact ⟨cap, titleTailAst_first r (astCap r) cap hcap, htrim⟩

theorem titleScan_found (s : List Char) (i : Nat) (cap : List Char)
    (hf : findCIFrom "identified issue:" s = some i)
    (hc : titleTailCapture (s.drop (i + 17)) = some cap) :
    titleScan s = some cap := by
  induction s generalizing i with
  | nil => simp [findCIFrom] at hf
  | cons c rest ih =>
    unfold findCIFrom at hf
    by_cases hat : atCI "identified issue:" (c :: rest) = true
    · rw [if_pos hat] at hf
      cases hf
      unfold titleScan
      rw [if_pos hat]
      have : (c :: rest).drop (0 + 17) = (c :: rest).drop 17 := by norm_num
      rw [this] at hc
      rw [hc]
    · rw [if_neg hat] at hf
      rw [Option.map_eq_some'] at hf
      obtain ⟨j, hj, hij⟩ := hf
      subst hij
      unfold titleScan
      rw [if_neg hat]
      refine ih j hj ?_
      have : (c :: rest).drop (j + 1 + 17) = rest.drop (j + 17) := by
        have h17 : j + 1 + 17 = (j + 17) + 1 := by omega
        rw [h17, List.drop_succ_cons]
      rw [this] at hc
      exact hc

/-! ### Claim C1: the title is the sole completion signal -/

/-- Claim C1: when the response carries a well-formed
`IDENTIFIED ISSUE:` header (its line has actual title text), the extractor
returns a non-null diagnosis with a non-empty title; when the header is
absent (no case-insensitive occurrence at all), the diagnosis is null —
regardless of which other sections are present. -/
theorem extractDiagnosis_title_contract (s : List Char) :
    (wellFormedHeaderB s = true →
      ∃ d, (extractDiagnosis s).diagnosis = some d ∧ d.title ≠ []) ∧
    (containsSub "identified issue:".data (lowerL s) = false →
      (extractDiagnosis s).diagnosis = none) := by
  constructor
  · intro h
    unfold wellFormedHeaderB at h
    rcases hf : findCIFrom "identified issue:" s with d | i
    · rw [hf] at h
      simp at h
    · rw [hf] at h
      rw [List.any_eq_true] at h
      obtain ⟨c, hc, hcb⟩ := h
      rw [Bool.and_eq_true] at hcb
      have hgood : ∃ c2 ∈ (s.drop (i + 17)).takeWhile (· ≠ '\n'),
          jsWs c2 = false ∧ c2 ≠ '*' := by
        refine ⟨c, hc, by simpa using hcb.1, by simpa using hcb.2⟩
      obtain ⟨cap, hcap, htrim⟩ := titleTailCapture_good _ hgood
      have hscan : titleScan s = some cap := titleScan_found s i cap hf hcap
      have heq : (extractDiagnosis s).diagnosis =
          some
            { title := trimL cap
              summary := summaryOf s
              parts_needed := sectionItems "required parts:"
                ["required tools:", "repair steps:", "prevention tips:"] s
              tools_needed := sectionItems "required tools:"
                ["repair steps:", "prevention tips:"] s
              steps := sectionSteps s } := by
        unfold extractDiagnosis
        rw [hscan]
        simp only
        rw [if_pos htrim]
      exact ⟨_, heq, htrim⟩
  · intro h
    have hscan : titleScan s = none := titleScan_eq_none s h
    unfold extractDiagnosis
    rw [hscan]
    simp

/-- Witness for `extractDiagnosis_title_contract`: the leaky-faucet
response has a well-formed header and yields a diagnosis; "hello" has no
header and yields none. -/
theorem extractDiagnosis_title_contract_witness :
    wellFormedHeaderB leakyFaucetResponse = true ∧
    (∃ d, (extractDiagnosis leakyFaucetResponse).diagnosis = some d ∧ d.title ≠ []) ∧
    containsSub "identified issue:".data (lowerL "hello".data) = false ∧
    (extractDiagnosis "hello".data).diagnosis = none :=
  ⟨by set_option maxRecDepth 4000 in decide,
   (extractDiagnosis_title_contract leakyFaucetResponse).1
     (by set_option maxRecDepth 4000 in decide),
   by decide,
   (extractDiagnosis_title_contract "hello".data).2 (by decide)⟩



/-! ### Cleaned-text lemmas (claim C9) -/

theorem firstSat_some_spec (p : Nat → Bool) (f i k : Nat)
    (h : firstSat p i f = some k) :
    p k = true ∧ i ≤ k ∧ ∀ j, i ≤ j → j < k → p j = false := by
  induction f generalizing i with
  | zero => simp [firstSat] at h
  | succ f ih =>
    unfold firstSat at h
    by_cases hp : p i = true
    · rw [if_pos hp] at h
      cases h
      exact ⟨hp, Nat.le_refl _, fun j h1 h2 => absurd h1 (by omega)⟩
    · rw [if_neg hp] at h
      obtain ⟨hk, hle, hmin⟩ := ih (i + 1) h
      refine ⟨hk, by omega, fun j h1 h2 => ?_⟩
      by_cases hj : j = i
      · subst hj
        simpa using hp
      · exact hmin j (by omega) h2

theorem firstSat_none_spec (p : Nat → Bool) (f i : Nat)
    (h : firstSat p i f = none) :
    ∀ j, i ≤ j → j < i + f → p j = false := by
  induction f generalizing i with
  | zero =>
    intro j h1 h2
    omega
  | succ f ih =>
    unfold firstSat at h
    by_cases hp : p i = true
    · rw [if_pos hp] at h
      simp at h
    · rw [if_neg hp] at h
      intro j h1 h2
      by_cases hj : j = i
      · subst hj
        simpa using hp
      · exact ih (i + 1) h j (by omega) (by omega)

theorem firstSat_all_false (p : Nat → Bool) (hp : ∀ j, p j = false) (f i : Nat) :
    firstSat p i f = none := by
  induction f generalizing i with
  | zero => rfl
  | succ f ih =>
    unfold firstSat
    rw [if_neg (by simp [hp i])]
    exact ih (i + 1)

theorem noWordOpt_spec (o : Option Char) :
    noWordOpt o = true ↔ ∀ c, o = some c → isWordCh c = false := by
  cases o <;> simp [noWordOpt]

theorem kwB_bound (s : List Char) (k : Nat) (h : kwB s k = true) : k + 4 ≤ s.length := by
  unfold kwB at h
  rw [Bool.and_eq_true, Bool.and_eq_true] at h
  have hpre := h.1.1
  rw [List.isPrefixOf_iff_prefix] at hpre
  have hlen := hpre.length_le
  simp [lowerL, List.length_drop] at hlen
  omega

theorem kwB_beyond (s : List Char) (k : Nat) (hk : s.length ≤ k) : kwB s k = false := by
  by_contra h
  rw [Bool.not_eq_false] at h
  have := kwB_bound s k h
  omega

theorem jsonKeywordIndex_none_all (s : List Char) (h : jsonKeywordIndex s = none) :
    ∀ j, kwB s j = false := by
  intro j
  by_cases hj : j < s.length + 1
  · exact firstSat_none_spec _ _ _ h j (Nat.zero_le j) (by omega)
  · exact kwB_beyond s j (by omega)

theorem jsonKeywordIndex_some_spec (s : List Char) (k : Nat)
    (h : jsonKeywordIndex s = some k) :
    kwB s k = true ∧ ∀ j, j < k → kwB s j = false := by
  obtain ⟨h1, _, h3⟩ := firstSat_some_spec _ _ _ _ h
  exact ⟨h1, fun j hj => h3 j (Nat.zero_le j) hj⟩

theorem braceB_bound (s : List Char) (i : Nat) (h : braceB s i = true) : i < s.length := by
  unfold braceB at h
  rw [Bool.and_eq_true] at h
  have h1 := h.1
  rcases hh : (s.drop i).head? with _ | c
  · rw [hh] at h1
    simp [isLbraceOpt] at h1
  · have hne : s.drop i ≠ [] := by
      intro hx
      rw [hx] at hh
      simp at hh
    have := List.length_pos.mpr hne
    rw [List.length_drop] at this
    omega

theorem braceSearch_some_spec (s : List Char) (i : Nat)
    (h : braceSearch s = some i) :
    braceB s i = true ∧ ∀ j, j < i → braceB s j = false := by
  obtain ⟨h1, _, h3⟩ := firstSat_some_spec _ _ _ _ h
  exact ⟨h1, fun j hj => h3 j (Nat.zero_le j) hj⟩

theorem ws_not_word (c : Char) (h : jsWs c = true) : isWordCh c = false := by
  unfold jsWs at h
  simp only [Bool.or_eq_true, decide_eq_true_eq] at h
  rcases h with ((((((h|h)|h)|h)|h)|h)|h)|h <;> subst h <;> decide

theorem isWordCh_of_lowerChar_n (c : Char) (h : lowerChar c = 'n') : isWordCh c = true := by
  unfold lowerChar at h
  by_cases hc : 'A' ≤ c ∧ c ≤ 'Z'
  · unfold isWordCh
    have h1 : decide ('A' ≤ c) = true := decide_eq_true hc.1
    have h2 : decide (c ≤ 'Z') = true := decide_eq_true hc.2
    simp [h1, h2]
  · rw [if_neg hc] at h
    subst h
    decide

theorem getLast?_mem_ws (w : List Char) (hws : ∀ c ∈ w, jsWs c = true) (c : Char)
    (h : w.getLast? = some c) : jsWs c = true := by
  have hmem : c ∈ w.getLast? := by
    rw [Option.mem_def]
    exact h
  obtain ⟨hne, heq⟩ := List.mem_getLast?_eq_getLast hmem
  subst heq
  exact hws _ (List.getLast_mem hne)

theorem trim_decomp (l : List Char) :
    ∃ w1 w2, l = w1 ++ trimL l ++ w2 ∧
      (∀ c ∈ w1, jsWs c = true) ∧ (∀ c ∈ w2, jsWs c = true) := by
  refine ⟨l.takeWhile jsWs, ((l.dropWhile jsWs).reverse.takeWhile jsWs).reverse, ?_, ?_, ?_⟩
  · unfold trimL trimRightL
    conv_lhs => rw [← List.takeWhile_append_dropWhile jsWs l]
    rw [List.append_assoc]
    congr 1
    conv_lhs => rw [← List.reverse_reverse (l.dropWhile jsWs),
      ← List.takeWhile_append_dropWhile jsWs (l.dropWhile jsWs).reverse]
    rw [List.reverse_append]
  · intro c hc
    exact List.mem_takeWhile_imp hc
  · intro c hc
    rw [List.mem_reverse] at hc
    exact List.mem_takeWhile_imp hc

theorem containsSub_nil_pat (l : List Char) : containsSub [] l = true := by
  cases l <;> simp [containsSub, List.isPrefixOf]

theorem containsSub_append_left (pat a b : List Char) (h : containsSub pat a = true) :
    containsSub pat (a ++ b) = true := by
  induction a with
  | nil =>
    unfold containsSub at h
    have hp : pat = [] := by
      rw [List.isPrefixOf_iff_prefix] at h
      exact List.prefix_nil.mp h
    subst hp
    exact containsSub_nil_pat _
  | cons c rest ih =>
    unfold containsSub at h
    rw [Bool.or_eq_true] at h
    show (pat.isPrefixOf (c :: (rest ++ b)) || containsSub pat (rest ++ b)) = true
    rw [Bool.or_eq_true]
    rcases h with h | h
    · left
      rw [List.isPrefixOf_iff_prefix] at h ⊢
      exact h.trans (List.prefix_append _ _)
    · right
      exact ih h



theorem kwB_lift (s : List Char) (n p : Nat) (hn : n ≤ s.length)
    (h : kwB (trimL (s.take n)) p = true) :
    ∃ q, q + 4 ≤ n ∧
      "json".data.isPrefixOf (lowerL (s.drop q)) = true ∧
      (∀ c, (s.take q).getLast? = some c → isWordCh c = false) ∧
      ((∀ c, (s.drop (q + 4)).head? = some c → isWordCh c = false) ∨
        (q + 4 = n ∧ ∃ c3, (s.take n).getLast? = some c3 ∧ isWordCh c3 = true)) := by
  set u := s.take n with hu
  set cl := trimL u with hcldef
  obtain ⟨w1, w2, hdec, hw1, hw2⟩ := trim_decomp u
  rw [← hcldef] at hdec
  have hulen : u.length = n := by
    rw [hu, List.length_take]
    omega
  have hlen : n = w1.length + cl.length + w2.length := by
    have hh := congrArg List.length hdec
    simp only [List.length_append] at hh
    omega
  unfold kwB at h
  rw [Bool.and_eq_true, Bool.and_eq_true] at h
  obtain ⟨⟨hpre, hleft⟩, hright⟩ := h
  have hp4 : p + 4 ≤ cl.length := by
    have hpre2 := hpre
    rw [List.isPrefixOf_iff_prefix] at hpre2
    have hlen2 := hpre2.length_le
    simp [lowerL, List.length_drop] at hlen2
    omega
  have hs : s = w1 ++ (cl ++ (w2 ++ s.drop n)) := by
    conv_lhs => rw [← List.take_append_drop n s]
    rw [← hu, hdec]
    simp [List.append_assoc]
  have hdrop : s.drop (w1.length + p) = cl.drop p ++ (w2 ++ s.drop n) := by
    conv_lhs => rw [hs, List.drop_append]
    exact List.drop_append_of_le_length (by omega)
  have htake : s.take (w1.length + p) = w1 ++ cl.take p := by
    conv_lhs => rw [hs, List.take_append]
    rw [List.take_append_of_le_length (by omega)]
  have hdrop4 : s.drop (w1.length + p + 4) = cl.drop (p + 4) ++ (w2 ++ s.drop n) := by
    have harith : w1.length + p + 4 = w1.length + (p + 4) := by omega
    rw [harith]
    conv_lhs => rw [hs, List.drop_append]
    exact List.drop_append_of_le_length hp4
  refine ⟨w1.length + p, by omega, ?_, ?_, ?_⟩
  · rw [hdrop]
    unfold lowerL at hpre ⊢
    rw [List.map_append]
    rw [List.isPrefixOf_iff_prefix] at hpre ⊢
    exact hpre.trans (List.prefix_append _ _)
  · intro c hc
    rw [htake] at hc
    by_cases hnil : cl.take p = []
    · rw [hnil, List.append_nil] at hc
      exact ws_not_word c (getLast?_mem_ws w1 hw1 c hc)
    · rw [List.getLast?_append_of_ne_nil _ hnil] at hc
      exact (noWordOpt_spec _).mp hleft c hc
  · by_cases hend : cl.drop (p + 4) = []
    · have hpl : p + 4 = cl.length := by
        have hh := congrArg List.length hend
        rw [List.length_drop] at hh
        simp at hh
        omega
      rcases hw2e : w2 with _ | ⟨c2, t2⟩
      · right
        rw [hw2e] at hlen
        have hq4 : w1.length + p + 4 = n := by
          simp at hlen
          omega
        refine ⟨hq4, ?_⟩
        have hclne : cl.drop p ≠ [] := by
          intro hx
          have hh := congrArg List.length hx
          rw [List.length_drop] at hh
          simp at hh
          omega
        have hcne : cl ≠ [] := by
          intro hx
          rw [hx] at hp4
          simp at hp4
        have hu2 : u = w1 ++ cl := by
          rw [hdec, hw2e]
          simp
        have hlast : (s.take n).getLast? = (cl.drop p).getLast? := by
          rw [← hu, hu2, List.getLast?_append_of_ne_nil _ hcne]
          conv_lhs => rw [← List.take_append_drop p cl]
          rw [List.getLast?_append_of_ne_nil _ hclne]
        have heq4 : lowerL (cl.drop p) = "json".data := by
          rw [List.isPrefixOf_iff_prefix] at hpre
          refine (hpre.eq_of_length ?_).symm
          simp [lowerL, List.length_drop]
          omega
        have hmapn : (cl.drop p).getLast?.map lowerChar = some 'n' := by
          rw [← List.getLast?_map]
          have : lowerL (cl.drop p) = (cl.drop p).map lowerChar := rfl
          rw [← this, heq4]
          rfl
        obtain ⟨c3, hc3, hc3n⟩ := Option.map_eq_some'.mp hmapn
        exact ⟨c3, by rw [hlast]; exact hc3, isWordCh_of_lowerChar_n c3 hc3n⟩
      · left
        intro c hc
        rw [hdrop4, hend, hw2e] at hc
        simp at hc
        subst hc
        exact ws_not_word _ (hw2 _ (by rw [hw2e]; exact List.mem_cons_self _ _))
    · left
      intro c hc
      obtain ⟨c2, t2, hct⟩ := List.exists_cons_of_ne_nil hend
      rw [hdrop4, hct] at hc
      simp at hc
      subst hc
      refine (noWordOpt_spec _).mp hright c2 ?_
      rw [hct]
      rfl

theorem braceB_lift (s : List Char) (n p : Nat) (hn : n ≤ s.length)
    (h : braceB (trimL (s.take n)) p = true) :
    ∃ q, q < n ∧ braceB s q = true := by
  set u := s.take n with hu
  set cl := trimL u with hcldef
  obtain ⟨w1, w2, hdec, hw1, hw2⟩ := trim_decomp u
  rw [← hcldef] at hdec
  have hulen : u.length = n := by
    rw [hu, List.length_take]
    omega
  have hlen : n = w1.length + cl.length + w2.length := by
    have hh := congrArg List.length hdec
    simp only [List.length_append] at hh
    omega
  unfold braceB at h
  rw [Bool.and_eq_true] at h
  obtain ⟨hbr, hfd⟩ := h
  have hplen : p < cl.length := by
    rcases hh : (cl.drop p).head? with _ | c
    · rw [hh] at hbr
      simp [isLbraceOpt] at hbr
    · have hne : cl.drop p ≠ [] := by
        intro hx
        rw [hx] at hh
        simp at hh
      have := List.length_pos.mpr hne
      rw [List.length_drop] at this
      omega
  have hs : s = w1 ++ (cl ++ (w2 ++ s.drop n)) := by
    conv_lhs => rw [← List.take_append_drop n s]
    rw [← hu, hdec]
    simp [List.append_assoc]
  have hdrop : s.drop (w1.length + p) = cl.drop p ++ (w2 ++ s.drop n) := by
    conv_lhs => rw [hs, List.drop_append]
    exact List.drop_append_of_le_length (by omega)
  have hdrop1 : s.drop (w1.length + p + 1) = cl.drop (p + 1) ++ (w2 ++ s.drop n) := by
    have harith : w1.length + p + 1 = w1.length + (p + 1) := by omega
    rw [harith]
    conv_lhs => rw [hs, List.drop_append]
    exact List.drop_append_of_le_length (by omega)
  refine ⟨w1.length + p, by omega, ?_⟩
  unfold braceB
  rw [Bool.and_eq_true]
  constructor
  · rw [hdrop]
    obtain ⟨c2, t2, hct⟩ := List.exists_cons_of_ne_nil
      (show cl.drop p ≠ [] by
        intro hx
        have hh := congrArg List.length hx
        rw [List.length_drop] at hh
        simp at hh
        omega)
    rw [hct]
    rw [hct] at hbr
    exact hbr
  · rw [hdrop1]
    unfold lowerL at hfd ⊢
    rw [List.map_append]
    exact containsSub_append_left _ _ _ hfd



/-! ### Claim C9 (amended theorem) -/

/-- Claim C9 (amended): when the `JSON` keyword marker is present, the
cleaned text is the response truncated before its first occurrence and
contains no keyword marker (though, as the counterexample shows, an
earlier brace marker can survive this cut); when the keyword is absent and
a brace marker is present, the cleaned text is the response truncated
before the first brace marker and contains no marker of either kind. -/
theorem extractDiagnosis_cleaned_spec (s : List Char) :
    (∀ k, jsonKeywordIndex s = some k →
      (extractDiagnosis s).cleanedText = trimL (s.take k) ∧
      jsonKeywordIndex ((extractDiagnosis s).cleanedText) = none) ∧
    (jsonKeywordIndex s = none →
      ∀ i, braceSearch s = some i →
        (extractDiagnosis s).cleanedText = trimL (s.take i) ∧
        braceSearch ((extractDiagnosis s).cleanedText) = none ∧
        jsonKeywordIndex ((extractDiagnosis s).cleanedText) = none) := by
  constructor
  · intro k hk
    obtain ⟨hkk, hmin⟩ := jsonKeywordIndex_some_spec s k hk
    have hn : k + 4 ≤ s.length := kwB_bound s k hkk
    have hcut : cutoffIndex s = k := by
      unfold cutoffIndex
      rw [hk]
    have hclean : (extractDiagnosis s).cleanedText = trimL (s.take k) := by
      show trimL (s.take (cutoffIndex s)) = trimL (s.take k)
      rw [hcut]
    refine ⟨hclean, ?_⟩
    rw [hclean]
    apply firstSat_all_false
    intro p
    by_contra hp
    rw [Bool.not_eq_false] at hp
    obtain ⟨q, hq4, hpre, hleft, hrest⟩ := kwB_lift s k p (by omega) hp
    rcases hrest with hright | ⟨hq4e, c3, hc3, hword⟩
    · have hkw : kwB s q = true := by
        unfold kwB
        rw [Bool.and_eq_true, Bool.and_eq_true]
        exact ⟨⟨hpre, (noWordOpt_spec _).mpr hleft⟩, (noWordOpt_spec _).mpr hright⟩
      have := hmin q (by omega)
      simp_all
    · unfold kwB at hkk
      rw [Bool.and_eq_true, Bool.and_eq_true] at hkk
      have hfalse := (noWordOpt_spec _).mp hkk.1.2 c3 hc3
      rw [hword] at hfalse
      simp at hfalse
  · intro hnone i hbr
    obtain ⟨hbb, hbmin⟩ := braceSearch_some_spec s i hbr
    have hni : i < s.length := braceB_bound s i hbb
    have hcut : cutoffIndex s = i := by
      unfold cutoffIndex
      rw [hnone, hbr]
    have hclean : (extractDiagnosis s).cleanedText = trimL (s.take i) := by
      show trimL (s.take (cutoffIndex s)) = trimL (s.take i)
      rw [hcut]
    have hall := jsonKeywordIndex_none_all s hnone
    refine ⟨hclean, ?_, ?_⟩
    · rw [hclean]
      apply firstSat_all_false
      intro p
      by_contra hp
      rw [Bool.not_eq_false] at hp
      obtain ⟨q, hq, hbq⟩ := braceB_lift s i p (by omega) hp
      have := hbmin q hq
      simp_all
    · rw [hclean]
      apply firstSat_all_false
      intro p
      by_contra hp
      rw [Bool.not_eq_false] at hp
      obtain ⟨q, hq4, hpre, hleft, hrest⟩ := kwB_lift s i p (by omega) hp
      have hkw : kwB s q = true := by
        unfold kwB
        rw [Bool.and_eq_true, Bool.and_eq_true]
        refine ⟨⟨hpre, (noWordOpt_spec _).mpr hleft⟩, (noWordOpt_spec _).mpr ?_⟩
        rcases hrest with hright | ⟨hq4e, _, _, _⟩
        · exact hright
        · intro c hc
          rw [hq4e] at hc
          unfold braceB at hbb
          rw [Bool.and_eq_true] at hbb
          have hbb1 := hbb.1
          rw [hc] at hbb1
          simp [isLbraceOpt] at hbb1
          rw [hbb1]
          decide
      have := hall q
      simp_all

/-- Witness for `extractDiagnosis_cleaned_spec`: the keyword branch on
`jsonMarkerResponse` (keyword at index 20) and the brace branch on
`braceOnlyResponse` (brace marker at index 10, no keyword). -/
theorem extractDiagnosis_cleaned_spec_witness :
    jsonKeywordIndex jsonMarkerResponse = some 20 ∧
    ((extractDiagnosis jsonMarkerResponse).cleanedText =
        trimL (jsonMarkerResponse.take 20) ∧
      jsonKeywordIndex ((extractDiagnosis jsonMarkerResponse).cleanedText) = none) ∧
    jsonKeywordIndex braceOnlyResponse = none ∧
    braceSearch braceOnlyResponse = some 10 ∧
    ((extractDiagnosis braceOnlyResponse).cleanedText =
        trimL (braceOnlyResponse.take 10) ∧
      braceSearch ((extractDiagnosis braceOnlyResponse).cleanedText) = none ∧
      jsonKeywordIndex ((extractDiagnosis braceOnlyResponse).cleanedText) = none) :=
  ⟨by set_option maxRecDepth 4000 in decide,
   (extractDiagnosis_cleaned_spec jsonMarkerResponse).1 20
     (by set_option maxRecDepth 4000 in decide),
   by set_option maxRecDepth 4000 in decide,
   by set_option maxRecDepth 4000 in decide,
   (extractDiagnosis_cleaned_spec braceOnlyResponse).2
     (by set_option maxRecDepth 4000 in decide) 10
     (by set_option maxRecDepth 4000 in decide)⟩


end FixitHero
